import Mathlib

/-!
Verification of the retail retention preprocessing pipeline
(`scripts/retail_preprocess.py`).

Modelling conventions used throughout this development:

* Python `float` values are modelled as exact rationals (`ℚ`): the pipeline
  arithmetic (sums, ratios, clamps, roundings) is modelled as ideal rational
  arithmetic.  Python `round(x, n)` rounds half to even on the argument, which
  is modelled exactly by `round_half_even` below.  Strings that parse to the
  non-finite floats `inf`/`nan` are classified as such by the parsing model
  (`PyFloat`), which is where they matter; accepted transaction lines carry
  finite (rational) prices.
* Python strings are modelled as `String`, except period keys, which are kept
  as `List Char` because their code-point-lexicographic *ordering* matters.
  `pyStrLt` is that ordering (what Python `<` and `sorted` use on `str`).
* Python dicts are modelled as insertion-ordered association lists, matching
  CPython's guaranteed dict iteration order.
* The 64-bit blake2b digest used for row deduplication is modelled by the
  exact string that the code hashes (an injective model of the digest;
  hash collisions are not modelled).
-/

/-- Code-point lexicographic comparison of character lists; this is the
strict order Python uses for `str` comparison and `sorted`. -/
def pyStrLt : List Char → List Char → Bool
  | [], [] => false
  | [], _ :: _ => true
  | _ :: _, [] => false
  | a :: as, b :: bs =>
    if a.toNat < b.toNat then true
    else if b.toNat < a.toNat then false
    else pyStrLt as bs

/-- Zero-padded decimal digit expansion of `n` to width `w`, as characters;
models Python format specifiers such as `%04d` (for `n < 10 ^ w`). -/
def natPad : Nat → Nat → List Char
  | 0, _ => []
  | w + 1, n => Char.ofNat (48 + n / 10 ^ w) :: natPad w (n % 10 ^ w)

theorem natPad_length (w n : Nat) : (natPad w n).length = w := by
  induction w generalizing n with
  | zero => rfl
  | succ w ih => simp [natPad, ih]

theorem charDigit_toNat {d : Nat} (h : d < 10) : (Char.ofNat (48 + d)).toNat = 48 + d := by
  interval_cases d <;> decide

theorem natPad_lt (w : Nat) : ∀ n m, n < 10 ^ w → m < 10 ^ w →
    (pyStrLt (natPad w n) (natPad w m) = true ↔ n < m) := by
  induction w with
  | zero =>
    intro n m hn hm
    simp [pow_zero] at hn hm
    subst hn; subst hm
    simp [natPad, pyStrLt]
  | succ w ih =>
    intro n m hn hm
    have hdn : n / 10 ^ w < 10 := Nat.div_lt_of_lt_mul (by rw [pow_succ] at hn; exact hn)
    have hdm : m / 10 ^ w < 10 := Nat.div_lt_of_lt_mul (by rw [pow_succ] at hm; exact hm)
    have hmodn : n % 10 ^ w < 10 ^ w := Nat.mod_lt _ (by positivity)
    have hmodm : m % 10 ^ w < 10 ^ w := Nat.mod_lt _ (by positivity)
    have hneq : n = 10 ^ w * (n / 10 ^ w) + n % 10 ^ w := (Nat.div_add_mod n (10 ^ w)).symm
    have hmeq : m = 10 ^ w * (m / 10 ^ w) + m % 10 ^ w := (Nat.div_add_mod m (10 ^ w)).symm
    simp only [natPad, pyStrLt, charDigit_toNat hdn, charDigit_toNat hdm]
    rcases Nat.lt_trichotomy (n / 10 ^ w) (m / 10 ^ w) with hlt | heq | hgt
    · have h1 : 48 + n / 10 ^ w < 48 + m / 10 ^ w := by omega
      simp only [if_pos h1, true_iff]
      have hp : (0:ℕ) < 10 ^ w := by positivity
      calc n < 10 ^ w * (n / 10 ^ w) + 10 ^ w := by omega
        _ = 10 ^ w * (n / 10 ^ w + 1) := by ring
        _ ≤ 10 ^ w * (m / 10 ^ w) := by
              apply Nat.mul_le_mul_left
              omega
        _ ≤ m := by omega
    · rw [heq] at hneq
      simp only [heq, lt_irrefl, if_false, ih _ _ hmodn hmodm]
      omega
    · have h1 : ¬ (48 + n / 10 ^ w < 48 + m / 10 ^ w) := by omega
      have h2 : 48 + m / 10 ^ w < 48 + n / 10 ^ w := by omega
      simp only [if_neg h1, if_pos h2, Bool.false_eq_true, false_iff, not_lt]
      have hp : (0:ℕ) < 10 ^ w := by positivity
      have : m < n := by
        calc m < 10 ^ w * (m / 10 ^ w) + 10 ^ w := by omega
          _ = 10 ^ w * (m / 10 ^ w + 1) := by ring
          _ ≤ 10 ^ w * (n / 10 ^ w) := by
                apply Nat.mul_le_mul_left
                omega
          _ ≤ n := by omega
      exact Nat.le_of_lt this

theorem pyStrLt_append_same (as cs ds : List Char) :
    pyStrLt (as ++ cs) (as ++ ds) = pyStrLt cs ds := by
  induction as with
  | nil => rfl
  | cons a as ih => simp [pyStrLt, ih]

theorem pyStrLt_append_left : ∀ (as bs : List Char), as.length = bs.length →
    pyStrLt as bs = true → ∀ (cs ds : List Char), pyStrLt (as ++ cs) (bs ++ ds) = true := by
  intro as
  induction as with
  | nil =>
    intro bs hlen h
    cases bs with
    | nil => intro cs ds; simp [pyStrLt] at h
    | cons b bs => simp at hlen
  | cons a as ih =>
    intro bs hlen h
    cases bs with
    | nil => simp at hlen
    | cons b bs =>
      intro cs ds
      simp only [pyStrLt, List.cons_append] at h ⊢
      by_cases h1 : a.toNat < b.toNat
      · simp [h1]
      · simp only [if_neg h1] at h ⊢
        by_cases h2 : b.toNat < a.toNat
        · simp [h2] at h
        · simp only [if_neg h2] at h ⊢
          exact ih bs (by simpa using hlen) h cs ds

theorem pyStrLt_append_gt : ∀ (as bs : List Char), as.length = bs.length →
    pyStrLt bs as = true → ∀ (cs ds : List Char), pyStrLt (as ++ cs) (bs ++ ds) = false := by
  intro as
  induction as with
  | nil =>
    intro bs hlen h
    cases bs with
    | nil => intro cs ds; simp [pyStrLt] at h
    | cons b bs => simp at hlen
  | cons a as ih =>
    intro bs hlen h
    cases bs with
    | nil => simp at hlen
    | cons b bs =>
      intro cs ds
      simp only [pyStrLt, List.cons_append] at h ⊢
      by_cases h2 : b.toNat < a.toNat
      · simp only [if_pos h2] at h ⊢
        simp only [if_neg (by omega : ¬ a.toNat < b.toNat)]
      · simp only [if_neg h2] at h
        by_cases h1 : a.toNat < b.toNat
        · simp [h1] at h
        · simp only [if_neg h1] at h ⊢
          simp only [if_neg h2]
          exact ih bs (by simpa using hlen) h cs ds

/-- Character string of a period key built from two zero-padded fields, the
shape shared by `month_key` (`YYYY-MM`) and `iso_week_key` (`YYYY-WW`). -/
def periodKeyChars (a b : Nat) : List Char := natPad 4 a ++ '-' :: natPad 2 b

theorem periodKeyChars_lt (a1 b1 a2 b2 : Nat)
    (ha1 : a1 < 10000) (ha2 : a2 < 10000) (hb1 : b1 < 100) (hb2 : b2 < 100) :
    (pyStrLt (periodKeyChars a1 b1) (periodKeyChars a2 b2) = true ↔
      (a1 < a2 ∨ (a1 = a2 ∧ b1 < b2))) := by
  unfold periodKeyChars
  rcases Nat.lt_trichotomy a1 a2 with hlt | heq | hgt
  · have h4 : pyStrLt (natPad 4 a1) (natPad 4 a2) = true :=
      (natPad_lt 4 a1 a2 ha1 ha2).mpr hlt
    rw [pyStrLt_append_left _ _ (by simp [natPad_length]) h4]
    simp [hlt]
  · subst heq
    rw [pyStrLt_append_same]
    have : pyStrLt ('-' :: natPad 2 b1) ('-' :: natPad 2 b2) = pyStrLt (natPad 2 b1) (natPad 2 b2) := by
      simp [pyStrLt]
    rw [this, show (100:ℕ) = 10 ^ 2 by norm_num] at *
    rw [natPad_lt 2 b1 b2 hb1 hb2]
    simp
  · have h4 : pyStrLt (natPad 4 a2) (natPad 4 a1) = true :=
      (natPad_lt 4 a2 a1 ha2 ha1).mpr hgt
    rw [pyStrLt_append_gt _ _ (by simp [natPad_length]) h4]
    simp only [Bool.false_eq_true, false_iff]
    push_neg
    constructor
    · omega
    · intro h; omega

/-- Insert for the stable insertion sort modelling Python `sorted`. -/
def insertLe {α : Type} (le : α → α → Bool) (a : α) : List α → List α
  | [] => [a]
  | b :: bs => if le a b then a :: b :: bs else b :: insertLe le a bs

/-- Stable insertion sort; models Python `sorted` (and `list.sort`) for the
boolean total preorder `le`. -/
def isort {α : Type} (le : α → α → Bool) : List α → List α
  | [] => []
  | a :: as => insertLe le a (isort le as)

theorem insertLe_perm {α : Type} (le : α → α → Bool) (a : α) (l : List α) :
    List.Perm (insertLe le a l) (a :: l) := by
  induction l with
  | nil => exact List.Perm.refl _
  | cons b bs ih =>
    by_cases h : le a b
    · simp only [insertLe, if_pos h]
      exact List.Perm.refl _
    · simp only [insertLe, if_neg h]
      exact List.Perm.trans (ih.cons b) (List.Perm.swap a b bs)

theorem isort_perm {α : Type} (le : α → α → Bool) (l : List α) :
    List.Perm (isort le l) l := by
  induction l with
  | nil => exact List.Perm.refl _
  | cons a as ih =>
    exact List.Perm.trans (insertLe_perm le a (isort le as)) (ih.cons a)

/-- Round to the nearest integer with ties to even — the rounding used by
Python built-in `round`. -/
def round_half_even (q : ℚ) : ℤ :=
  let f := ⌊q⌋
  if q - f < 1/2 then f
  else if (1:ℚ)/2 < q - f then f + 1
  else if f % 2 = 0 then f else f + 1

/-- Python `round(x, 1)` on the exact rational model. -/
def py_round1 (q : ℚ) : ℚ := (round_half_even (10 * q) : ℚ) / 10

/-- Python `round(x, 2)` on the exact rational model. -/
def py_round2 (q : ℚ) : ℚ := (round_half_even (100 * q) : ℚ) / 100

theorem round_half_even_nonneg {q : ℚ} (h : 0 ≤ q) : 0 ≤ round_half_even q := by
  have hf : 0 ≤ ⌊q⌋ := by
    rw [Int.le_floor]
    exact_mod_cast h
  unfold round_half_even
  dsimp only
  split
  · exact hf
  · split
    · omega
    · split <;> omega

theorem round_half_even_le {q : ℚ} {n : ℤ} (h : q ≤ (n : ℚ)) : round_half_even q ≤ n := by
  have hf : ⌊q⌋ ≤ n := by
    calc ⌊q⌋ ≤ ⌊(n:ℚ)⌋ := Int.floor_le_floor h
      _ = n := Int.floor_intCast n
  unfold round_half_even
  dsimp only
  split
  · exact hf
  · rename_i hlt
    push_neg at hlt
    have hgt : (⌊q⌋ : ℚ) < q := by
      have : (0:ℚ) < 1/2 := by norm_num
      linarith
    have : ⌊q⌋ < n := by
      by_contra hcon
      push_neg at hcon
      have : (n : ℚ) ≤ (⌊q⌋ : ℚ) := by exact_mod_cast hcon
      linarith
    split
    · omega
    · split <;> omega

theorem py_round1_nonneg {q : ℚ} (h : 0 ≤ q) : 0 ≤ py_round1 q := by
  unfold py_round1
  have h1 : (0:ℤ) ≤ round_half_even (10 * q) := round_half_even_nonneg (by linarith)
  have h2 : (0:ℚ) ≤ (round_half_even (10 * q) : ℚ) := by exact_mod_cast h1
  positivity

theorem py_round1_le_100 {q : ℚ} (h : q ≤ 100) : py_round1 q ≤ 100 := by
  unfold py_round1
  have h1 : round_half_even (10 * q) ≤ (1000 : ℤ) :=
    round_half_even_le (by push_cast; linarith)
  have h2 : (round_half_even (10 * q) : ℚ) ≤ 1000 := by exact_mod_cast h1
  linarith

/-- Characters removed by Python `str.strip()` (the ASCII whitespace set;
the csv fields in scope are ASCII). -/
def pyWhitespace (c : Char) : Bool :=
  c == ' ' || c == '\t' || c == '\n' || c == '\r' || c == '\x0b' || c == '\x0c'

/-- Python `str.strip()` on a character list. -/
def pyStripChars (cs : List Char) : List Char :=
  ((cs.dropWhile pyWhitespace).reverse.dropWhile pyWhitespace).reverse

/-- Python `str.isdigit()` restricted to ASCII digits (true only for a
nonempty all-digit string). -/
def isDigitList (cs : List Char) : Bool := !cs.isEmpty && cs.all Char.isDigit

/-- Python `s.endswith(".0")` on a character list. -/
def endsWithDot0 (cs : List Char) : Bool :=
  match cs.reverse with
  | '0' :: '.' :: _ => true
  | _ => false

/-- Python `s[:-2]` on a character list. -/
def dropLast2 (cs : List Char) : List Char := cs.dropLast.dropLast

/-- Model of `normalize_customer_id` (retail_preprocess.py lines 124–130):
strip whitespace; empty becomes `none`; a trailing `".0"` is removed when the
part before it is a nonempty digit string. -/
def normalize_customer_id (raw : String) : Option String :=
  let s := pyStripChars raw.data
  if s.isEmpty then none
  else if endsWithDot0 s && isDigitList (dropLast2 s) then some ⟨dropLast2 s⟩
  else some ⟨s⟩

/-- Outcome of CPython `float(str)`: a finite value (exact rational model),
a signed infinity, or nan. -/
inductive PyFloat where
  | finite (q : ℚ)
  | inf (pos : Bool)
  | nan
deriving DecidableEq

/-- Exception kinds relevant to the parser model. -/
inductive PyErr where
  | overflowError
deriving DecidableEq

/-- Numeric value of a most-significant-first digit list. -/
def digitsVal (cs : List Char) : Nat := cs.foldl (fun a c => 10 * a + (c.toNat - 48)) 0

/-- Nonempty all-digit check. -/
def allDigits (cs : List Char) : Bool := !cs.isEmpty && cs.all Char.isDigit

/-- Validity of digit-group underscores in a Python numeric string: every
underscore sits directly between two digits. -/
def underscoresOk : List Char → Bool
  | [] => true
  | '_' :: _ => false
  | [_] => true
  | a :: '_' :: b :: rest =>
    (a.isDigit && b.isDigit) && underscoresOk (b :: rest)
  | _ :: b :: rest => underscoresOk (b :: rest)

/-- Split at the first occurrence of `c`: part before, and (if `c` occurs)
part after. -/
def splitAtChar (c : Char) (cs : List Char) : List Char × Option (List Char) :=
  match cs.span (fun x => x ≠ c) with
  | (a, []) => (a, none)
  | (a, _ :: rest) => (a, some rest)

/-- Exponent part of a float literal: optional sign then digits. -/
def parseExp (cs : List Char) : Option ℤ :=
  match cs with
  | '+' :: rest => if allDigits rest then some ((digitsVal rest : ℤ)) else none
  | '-' :: rest => if allDigits rest then some (-(digitsVal rest : ℤ)) else none
  | rest => if allDigits rest then some ((digitsVal rest : ℤ)) else none

/-- Smallest positive real magnitude that converts to IEEE-754 double
infinity under round-to-nearest-even; CPython `float(str)` yields `inf` at or
above it (strtod overflow). -/
def doubleOverflowBound : ℚ := 2 ^ 1024 - 2 ^ 970

/-- Finite-literal value: sign, mantissa digits, number of fraction digits,
exponent; overflows to infinity past `doubleOverflowBound`. -/
def mkFinite (pos : Bool) (m : Nat) (fracLen : Nat) (e : ℤ) : PyFloat :=
  let mag : ℚ := (m : ℚ) * (10 : ℚ) ^ (e - (fracLen : ℤ))
  if doubleOverflowBound ≤ mag then PyFloat.inf pos
  else PyFloat.finite (if pos then mag else -mag)

/-- Model of CPython `float(str)`: optional surrounding whitespace and sign;
`inf`/`infinity`/`nan` case-insensitively; otherwise a decimal literal with
optional fraction part, exponent, and digit-group underscores.  Returns
`none` where `float(...)` raises `ValueError`. -/
def pyFloatOfChars (cs0 : List Char) : Option PyFloat :=
  let cs1 := (pyStripChars cs0).map Char.toLower
  let sgn := match cs1 with
    | '+' :: rest => (true, rest)
    | '-' :: rest => (false, rest)
    | rest => (true, rest)
  let pos := sgn.1
  let cs := sgn.2
  if cs = ['i','n','f'] ∨ cs = ['i','n','f','i','n','i','t','y'] then some (PyFloat.inf pos)
  else if cs = ['n','a','n'] then some PyFloat.nan
  else if !underscoresOk cs then none
  else
    let cs2 := cs.filter (fun c => c ≠ '_')
    let mantExp := splitAtChar 'e' cs2
    let ipfp := splitAtChar '.' mantExp.1
    let ip := ipfp.1
    let fp := ipfp.2.getD []
    if ip.all Char.isDigit && fp.all Char.isDigit && !(ip.isEmpty && fp.isEmpty) then
      match mantExp.2 with
      | none => some (mkFinite pos (digitsVal (ip ++ fp)) fp.length 0)
      | some ecs =>
        match parseExp ecs with
        | none => none
        | some e => some (mkFinite pos (digitsVal (ip ++ fp)) fp.length e)
    else none

/-- Python `int(float)` truncation toward zero. -/
def truncQ (q : ℚ) : ℤ := if 0 ≤ q then ⌊q⌋ else -⌊-q⌋

/-- Model of `parse_int` (retail_preprocess.py lines 104–111): strip, empty
gives `none`, else `int(float(s))` inside `try/except ValueError`.  `float`
failures and `int(nan)` raise `ValueError` (caught, `none`); `int(±inf)`
raises `OverflowError`, which is NOT caught and escapes to the caller. -/
def parse_int (raw : String) : Except PyErr (Option ℤ) :=
  let s := pyStripChars raw.data
  if s.isEmpty then .ok none
  else match pyFloatOfChars s with
    | none => .ok none
    | some (PyFloat.finite q) => .ok (some (truncQ q))
    | some PyFloat.nan => .ok none
    | some (PyFloat.inf _) => .error PyErr.overflowError

/-- Model of `parse_float` (lines 114–121): strip, empty gives `none`, else
`float(s)` inside `try/except ValueError`; `float(str)` raises only
`ValueError`, so this function never propagates an exception. -/
def parse_float (raw : String) : Option PyFloat :=
  let s := pyStripChars raw.data
  if s.isEmpty then none
  else pyFloatOfChars s

/-- Timestamp model: the date/time fields of a Python `datetime`
(year 1–9999). -/
structure DT where
  year : Nat
  month : Nat
  day : Nat
  hour : Nat
  minute : Nat
  second : Nat
deriving DecidableEq, Repr

/-- Gregorian leap-year test. -/
def isLeap (y : Nat) : Bool := (y % 4 == 0 && y % 100 != 0) || y % 400 == 0

/-- Days in month `m` of year `y`. -/
def daysInMonth (y m : Nat) : Nat :=
  if m = 2 then (if isLeap y then 29 else 28)
  else if m = 4 ∨ m = 6 ∨ m = 9 ∨ m = 11 then 30 else 31

/-- Cumulative days before each month in a non-leap year; CPython
`_DAYS_BEFORE_MONTH`. -/
def daysBeforeTable : Nat → Nat
  | 1 => 0
  | 2 => 31
  | 3 => 59
  | 4 => 90
  | 5 => 120
  | 6 => 151
  | 7 => 181
  | 8 => 212
  | 9 => 243
  | 10 => 273
  | 11 => 304
  | 12 => 334
  | _ => 0

/-- Days before month `m` in year `y`; CPython `_days_before_month`. -/
def daysBeforeMonth (y m : Nat) : Nat :=
  daysBeforeTable m + (if 2 < m ∧ isLeap y then 1 else 0)

/-- Valid `datetime` date fields. -/
def validDT (d : DT) : Prop :=
  1 ≤ d.year ∧ d.year ≤ 9999 ∧ 1 ≤ d.month ∧ d.month ≤ 12 ∧
    1 ≤ d.day ∧ d.day ≤ daysInMonth d.year d.month

instance (d : DT) : Decidable (validDT d) := by unfold validDT; infer_instance

/-- Proleptic Gregorian ordinal (0001-01-01 is day 1); CPython `_ymd2ord`. -/
def toOrdinal (y m d : Nat) : Nat :=
  365 * (y - 1) + (y - 1) / 4 + (y - 1) / 400 + daysBeforeMonth y m + d - (y - 1) / 100

/-- Ordinal of the Monday starting ISO week 1 of year `y`; CPython
`_isoweek1monday`. -/
def isoweek1monday (y : Nat) : ℤ :=
  let firstday : ℤ := toOrdinal y 1 1
  let firstweekday := (firstday + 6) % 7
  let week1monday := firstday - firstweekday
  if 3 < firstweekday then week1monday + 7 else week1monday

/-- CPython `date.isocalendar`, returning (ISO year, ISO week). -/
def isoYearWeek (y m d : Nat) : Nat × Nat :=
  let today : ℤ := toOrdinal y m d
  let week : ℤ := (today - isoweek1monday y) / 7
  if week < 0 then
    (y - 1, ((today - isoweek1monday (y - 1)) / 7 + 1).toNat)
  else if 52 ≤ week ∧ isoweek1monday (y + 1) ≤ today then
    (y + 1, 1)
  else
    (y, (week + 1).toNat)

/-- Model of `month_key` (retail_preprocess.py lines 133–134):
`f"{d.year:04d}-{d.month:02d}"`. -/
def month_key (d : DT) : List Char := periodKeyChars d.year d.month

/-- Model of `iso_week_key` (lines 137–139):
`f"{iso_year:04d}-{iso_week:02d}"`. -/
def iso_week_key (d : DT) : List Char :=
  let yw := isoYearWeek d.year d.month d.day
  periodKeyChars yw.1 yw.2

theorem daysBeforeMonth_bound (y m d : Nat) (h1 : 1 ≤ m) (h2 : m ≤ 12)
    (hd : d ≤ daysInMonth y m) : daysBeforeMonth y m + d ≤ 366 := by
  interval_cases m <;>
    simp only [daysBeforeMonth, daysBeforeTable, daysInMonth] at hd ⊢ <;>
    rcases h : isLeap y with _ | _ <;> simp [h] at hd ⊢ <;> omega

theorem toOrdinal_ge (y m d : Nat) (hd : 1 ≤ d) :
    toOrdinal y 1 1 ≤ toOrdinal y m d := by
  unfold toOrdinal
  have hdb : daysBeforeMonth y 1 = 0 := by simp [daysBeforeMonth, daysBeforeTable]
  rw [hdb]
  omega

theorem toOrdinal_le (y m d : Nat) (h1 : 1 ≤ m) (h2 : m ≤ 12)
    (hd : d ≤ daysInMonth y m) : toOrdinal y m d ≤ toOrdinal y 1 1 + 365 := by
  have hb := daysBeforeMonth_bound y m d h1 h2 hd
  unfold toOrdinal
  have hdb : daysBeforeMonth y 1 = 0 := by simp [daysBeforeMonth, daysBeforeTable]
  rw [hdb]
  omega

theorem toOrdinal_year_step (y : Nat) (hy : 1 ≤ y) :
    toOrdinal y 1 1 + 365 ≤ toOrdinal (y + 1) 1 1 ∧
      toOrdinal (y + 1) 1 1 ≤ toOrdinal y 1 1 + 366 := by
  unfold toOrdinal
  have hdb : daysBeforeMonth y 1 = 0 := by simp [daysBeforeMonth, daysBeforeTable]
  have hdb2 : daysBeforeMonth (y + 1) 1 = 0 := by simp [daysBeforeMonth, daysBeforeTable]
  rw [hdb, hdb2]
  omega

theorem isoweek1monday_bounds (y : Nat) :
    (toOrdinal y 1 1 : ℤ) - 3 ≤ isoweek1monday y ∧
      isoweek1monday y ≤ (toOrdinal y 1 1 : ℤ) + 3 := by
  unfold isoweek1monday
  dsimp only
  split <;> omega

theorem isoYearWeek_year_le (y m d : Nat) (hy : y ≤ 9999) (hm1 : 1 ≤ m)
    (hm : m ≤ 12) (hd : d ≤ daysInMonth y m) :
    (isoYearWeek y m d).1 ≤ 9999 := by
  unfold isoYearWeek
  dsimp only
  split
  · omega
  · split
    · rename_i hcond
      rcases Nat.lt_or_ge y 9999 with hlt | hge
      · simpa using by omega
      · have hy9 : y = 9999 := by omega
        subst hy9
        exfalso
        have hle := toOrdinal_le 9999 m d hm1 hm hd
        have e1 : toOrdinal 9999 1 1 = 3651695 := by decide
        have e2 : isoweek1monday 10000 = 3652062 := by decide
        rw [show (9999 : ℕ) + 1 = 10000 from rfl, e2] at hcond
        omega
    · omega

theorem isoYearWeek_week_lt (y m d : Nat) (hy1 : 1 ≤ y) (hm1 : 1 ≤ m)
    (hm : m ≤ 12) (hd1 : 1 ≤ d) (hd : d ≤ daysInMonth y m) :
    (isoYearWeek y m d).2 < 100 := by
  have hge := toOrdinal_ge y m d hd1
  have hle := toOrdinal_le y m d hm1 hm hd
  have hb1 := isoweek1monday_bounds y
  unfold isoYearWeek
  dsimp only
  split
  · rename_i hneg
    rcases Nat.lt_or_ge y 2 with h1 | h2
    · have hy1e : y = 1 := by omega
      subst hy1e
      exfalso
      have e1 : isoweek1monday 1 = 1 := by decide
      have e2 : toOrdinal 1 1 1 = 1 := by decide
      rw [e1] at hneg
      omega
    · have hb2 := isoweek1monday_bounds (y - 1)
      have hstep := toOrdinal_year_step (y - 1) (by omega)
      have hy' : y - 1 + 1 = y := by omega
      rw [hy'] at hstep
      omega
  · split
    · omega
    · rename_i hneg hcond
      omega

/-- C9: for every pair of valid timestamps, the month period key and the
ISO-week period key are monotone with respect to chronological order under
lexicographic string comparison: `month_key d1 < month_key d2` iff
`(year, month)` of `d1` precedes that of `d2`, and likewise `iso_week_key`
on `(ISO year, ISO week)`; hence sorting the distinct period keys ascending
as strings yields the chronological time axis. -/
theorem C9_period_keys_lex_monotone (d1 d2 : DT) (h1 : validDT d1) (h2 : validDT d2) :
    (pyStrLt (month_key d1) (month_key d2) = true ↔
      (d1.year < d2.year ∨ (d1.year = d2.year ∧ d1.month < d2.month))) ∧
    (pyStrLt (iso_week_key d1) (iso_week_key d2) = true ↔
      ((isoYearWeek d1.year d1.month d1.day).1 < (isoYearWeek d2.year d2.month d2.day).1 ∨
        ((isoYearWeek d1.year d1.month d1.day).1 = (isoYearWeek d2.year d2.month d2.day).1 ∧
          (isoYearWeek d1.year d1.month d1.day).2 < (isoYearWeek d2.year d2.month d2.day).2))) := by
  obtain ⟨hy1, hy2, hm1, hm2, hd1, hd2⟩ := h1
  obtain ⟨gy1, gy2, gm1, gm2, gd1, gd2⟩ := h2
  constructor
  · exact periodKeyChars_lt _ _ _ _ (by omega) (by omega) (by omega) (by omega)
  · unfold iso_week_key
    exact periodKeyChars_lt _ _ _ _
      (by have := isoYearWeek_year_le d1.year d1.month d1.day hy2 hm1 hm2 hd2; omega)
      (by have := isoYearWeek_year_le d2.year d2.month d2.day gy2 gm1 gm2 gd2; omega)
      (isoYearWeek_week_lt d1.year d1.month d1.day hy1 hm1 hm2 hd1 hd2)
      (isoYearWeek_week_lt d2.year d2.month d2.day gy1 gm1 gm2 gd1 gd2)

/-- Witness for C9 at the concrete pair 2022-12-31 and 2023-01-01 (which
share the ISO week 2022-W52 but have different months). -/
theorem C9_period_keys_lex_monotone_witness :
    validDT ⟨2022, 12, 31, 0, 0, 0⟩ ∧ validDT ⟨2023, 1, 1, 0, 0, 0⟩ ∧
    ((pyStrLt (month_key ⟨2022, 12, 31, 0, 0, 0⟩) (month_key ⟨2023, 1, 1, 0, 0, 0⟩) = true ↔
      ((2022 : Nat) < 2023 ∨ ((2022 : Nat) = 2023 ∧ (12 : Nat) < 1))) ∧
    (pyStrLt (iso_week_key ⟨2022, 12, 31, 0, 0, 0⟩) (iso_week_key ⟨2023, 1, 1, 0, 0, 0⟩) = true ↔
      ((isoYearWeek 2022 12 31).1 < (isoYearWeek 2023 1 1).1 ∨
        ((isoYearWeek 2022 12 31).1 = (isoYearWeek 2023 1 1).1 ∧
          (isoYearWeek 2022 12 31).2 < (isoYearWeek 2023 1 1).2)))) :=
  ⟨by decide, by decide,
    C9_period_keys_lex_monotone ⟨2022, 12, 31, 0, 0, 0⟩ ⟨2023, 1, 1, 0, 0, 0⟩
      (by decide) (by decide)⟩

/-- C7 counterexample: normalization does NOT strip a trailing ".0" from
every raw customer id — it keeps it when the part before ".0" is not a
nonempty digit string, e.g. `"x.0"` stays `"x.0"` instead of becoming
`"x"`. -/
theorem C7_counterexample :
    normalize_customer_id "x.0" = some "x.0" ∧
      normalize_customer_id "x.0" ≠ some "x" := by
  constructor
  · decide
  · decide

/-- C7 (amended): after trimming, an empty customer id becomes `none`
(never the empty string); a trailing ".0" is stripped exactly when the part
before it is a nonempty digit string, and is kept otherwise. -/
theorem C7_normalize_customer_id (raw : String) :
    (pyStripChars raw.data = [] → normalize_customer_id raw = none) ∧
    (∀ t : List Char, t ≠ [] → t.all Char.isDigit = true →
      pyStripChars raw.data = t ++ ['.', '0'] →
      normalize_customer_id raw = some ⟨t⟩) ∧
    (∀ t : List Char, ¬(t ≠ [] ∧ t.all Char.isDigit = true) →
      pyStripChars raw.data = t ++ ['.', '0'] →
      normalize_customer_id raw = some ⟨t ++ ['.', '0']⟩) ∧
    normalize_customer_id raw ≠ some "" := by
  have hdrop : ∀ t : List Char, dropLast2 (t ++ ['.', '0']) = t := by
    intro t
    unfold dropLast2
    rw [show t ++ ['.', '0'] = (t ++ ['.']) ++ ['0'] by simp]
    rw [List.dropLast_concat, List.dropLast_concat]
  have hends : ∀ t : List Char, endsWithDot0 (t ++ ['.', '0']) = true := by
    intro t
    unfold endsWithDot0
    rw [List.reverse_append]
    simp
  refine ⟨?_, ?_, ?_, ?_⟩
  · intro h
    simp [normalize_customer_id, h]
  · intro t ht hdig h
    have hne : (t ++ ['.', '0']).isEmpty = false := by cases t <;> simp
    have hdlt : isDigitList t = true := by
      unfold isDigitList
      cases t with
      | nil => exact absurd rfl ht
      | cons a as => simp_all
    simp [normalize_customer_id, h, hne, hends t, hdrop t, hdlt]
  · intro t ht h
    have hne : (t ++ ['.', '0']).isEmpty = false := by cases t <;> simp
    have hdlt : isDigitList t = false := by
      unfold isDigitList
      rcases Classical.em (t = []) with he | he
      · subst he; simp
      · have hall : t.all Char.isDigit = false := by
          cases htru : t.all Char.isDigit with
          | false => rfl
          | true => exact absurd ⟨he, htru⟩ ht
        simp [hall]
    simp [normalize_customer_id, h, hne, hends t, hdrop t, hdlt]
  · unfold normalize_customer_id
    rcases Classical.em ((pyStripChars raw.data).isEmpty = true) with he | he
    · simp [he]
    · have hne : (pyStripChars raw.data).isEmpty = false := by
        cases htru : (pyStripChars raw.data).isEmpty with
        | false => rfl
        | true => exact absurd htru he
      simp only [hne, Bool.false_eq_true, if_false]
      split
      · rename_i hcond
        have hdl : isDigitList (dropLast2 (pyStripChars raw.data)) = true := by
          rcases Bool.and_eq_true _ _ |>.mp hcond with ⟨_, h2⟩
          exact h2
        have : (dropLast2 (pyStripChars raw.data)).isEmpty = false := by
          unfold isDigitList at hdl
          rcases Bool.and_eq_true _ _ |>.mp hdl with ⟨h1, _⟩
          simpa using h1
        intro hcon
        rw [Option.some_inj] at hcon
        have : dropLast2 (pyStripChars raw.data) = [] := by
          have := congrArg String.data hcon
          simpa using this
        simp_all
      · intro hcon
        rw [Option.some_inj] at hcon
        have : pyStripChars raw.data = [] := by
          have := congrArg String.data hcon
          simpa using this
        rw [this] at hne
        simp at hne

/-- Witness for C7 at the concrete input `" 17850.0 "` (digit id with the
spreadsheet `.0` artifact and surrounding whitespace). -/
theorem C7_normalize_customer_id_witness :
    normalize_customer_id " 17850.0 " = some "17850" ∧
      normalize_customer_id " 17850.0 " ≠ some "" :=
  ⟨(C7_normalize_customer_id " 17850.0 ").2.1 ['1', '7', '8', '5', '0']
      (by decide) (by decide) (by decide),
    (C7_normalize_customer_id " 17850.0 ").2.2.2⟩

/-- Decimal character string of an integer (Python `str(int)`). -/
def intChars (n : ℤ) : List Char :=
  if n < 0 then '-' :: Nat.toDigits 10 n.natAbs else Nat.toDigits 10 n.natAbs

/-- Python `f"{x:.4f}"` on the exact rational model: sign of the value,
then the magnitude rounded (half to even) to four decimal places. -/
def fmt4 (q : ℚ) : List Char :=
  let n : ℤ := round_half_even (|q| * 10000)
  (if q < 0 then ['-'] else []) ++
    Nat.toDigits 10 (n / 10000).toNat ++ '.' :: natPad 4 (n % 10000).toNat

/-- Model of `_stable_row_key_hash` (retail_preprocess.py lines 228–231):
the string `f"{invoice}|{stock_code}|{customer_id or ''}|{qty}|{unit_price:.4f}"`
that the code hashes; the 64-bit blake2b digest is modelled by the string
itself. -/
def stable_row_key (invoice stock_code : String) (customer_id : Option String)
    (qty : ℤ) (unit_price : ℚ) : List Char :=
  invoice.data ++ '|' :: stock_code.data ++ '|' :: (customer_id.getD "").data ++
    '|' :: intChars qty ++ '|' :: fmt4 unit_price

/-- Per-invoice accumulator (`InvoiceAgg` dataclass, lines 191–199). -/
structure InvoiceAgg where
  invoice : String
  customer_id : Option String
  country : String
  invoice_date : DT
  revenue : ℚ
  is_return : Bool
  line_count : Nat
deriving DecidableEq, Repr

/-- Parse counters (`ParseStats` dataclass, lines 202–207). -/
structure ParseStats where
  raw_rows_seen : Nat := 0
  parsed_rows : Nat := 0
  skipped_bad_numeric : Nat := 0
  skipped_bad_date : Nat := 0
deriving DecidableEq, Repr

/-- Raw-dataset statistics (`RawStats` dataclass, lines 210–225). -/
structure RawStats where
  total_rows : Nat := 0
  missing_customer_rows : Nat := 0
  qty_le_0_rows : Nat := 0
  unitprice_le_0_rows : Nat := 0
  cancellations_rows : Nat := 0
  duplicate_rows : Nat := 0
  min_date : Option DT := none
  max_date : Option DT := none
deriving DecidableEq, Repr

/-- Python `datetime` comparison: field-lexicographic. -/
def dtLt (a b : DT) : Bool :=
  a.year < b.year || (a.year == b.year &&
    (a.month < b.month || (a.month == b.month &&
      (a.day < b.day || (a.day == b.day &&
        (a.hour < b.hour || (a.hour == b.hour &&
          (a.minute < b.minute || (a.minute == b.minute &&
            a.second < b.second)))))))))

/-- `RawStats.update_date_range` (lines 221–225). -/
def update_date_range (r : RawStats) (d : DT) : RawStats :=
  let r1 := match r.min_date with
    | none => { r with min_date := some d }
    | some m => if dtLt d m then { r with min_date := some d } else r
  match r1.max_date with
  | none => { r1 with max_date := some d }
  | some m => if dtLt m d then { r1 with max_date := some d } else r1

/-- One parsed transaction line with a finite (rational) unit price, about
to be folded into the aggregates (state at lines 270–272). -/
structure ParsedLine where
  invoice : String
  stock_code : String
  qty : ℤ
  unit_price : ℚ
  invoice_date : DT
  cust_raw : String
  country : String

/-- Aggregation state of `read_and_aggregate_invoices`: statistics, the set
of seen row-key hashes, and the insertion-ordered invoice map. -/
structure AggSt where
  raw : RawStats
  seen : List (List Char)
  invoices : List InvoiceAgg

/-- Dict lookup `invoices[invoice]` on the insertion-ordered model. -/
def lookupInvoice (invs : List InvoiceAgg) (id : String) : Option InvoiceAgg :=
  invs.find? (fun a => a.invoice == id)

/-- Raw-statistics updates of lines 274–283 (everything except the
duplicate counter). -/
def bumpRawCounters (raw : RawStats) (customer_id : Option String) (qty : ℤ)
    (unit_price : ℚ) (invoice : String) (d : DT) : RawStats :=
  let r1 := { raw with total_rows := raw.total_rows + 1 }
  let r2 := update_date_range r1 d
  let r3 := if customer_id = none then
    { r2 with missing_customer_rows := r2.missing_customer_rows + 1 } else r2
  let r4 := if qty ≤ 0 then { r3 with qty_le_0_rows := r3.qty_le_0_rows + 1 } else r3
  let r5 := if unit_price ≤ 0 then
    { r4 with unitprice_le_0_rows := r4.unitprice_le_0_rows + 1 } else r4
  if invoice.startsWith "C" then
    { r5 with cancellations_rows := r5.cancellations_rows + 1 } else r5

/-- Fold one line into the invoice map (lines 294–314): mutate the existing
aggregate or append a fresh one. -/
def foldInvoice (l : ParsedLine) (customer_id : Option String) :
    List InvoiceAgg → List InvoiceAgg
  | [] => [⟨l.invoice, customer_id, l.country, l.invoice_date,
      (l.qty : ℚ) * l.unit_price, l.invoice.startsWith "C" || decide (l.qty < 0), 1⟩]
  | a :: rest =>
    if a.invoice == l.invoice then
      { a with
        revenue := a.revenue + (l.qty : ℚ) * l.unit_price,
        line_count := a.line_count + 1,
        is_return := a.is_return || (l.invoice.startsWith "C" || decide (l.qty < 0)),
        customer_id := match a.customer_id with
          | none => customer_id
          | some c => some c,
        country := if a.country == "Unknown" && l.country != "Unknown"
          then l.country else a.country,
        invoice_date := if dtLt a.invoice_date l.invoice_date
          then l.invoice_date else a.invoice_date } :: rest
    else a :: foldInvoice l customer_id rest

/-- Lines 272–314 of `read_and_aggregate_invoices`: counters, duplicate
detection (duplicates are counted but still folded), and the invoice fold. -/
def ingestLine (st : AggSt) (l : ParsedLine) : AggSt :=
  let customer_id := normalize_customer_id l.cust_raw
  let raw6 := bumpRawCounters st.raw customer_id l.qty l.unit_price l.invoice l.invoice_date
  let h := stable_row_key l.invoice l.stock_code customer_id l.qty l.unit_price
  let invs := foldInvoice l customer_id st.invoices
  if h ∈ st.seen then
    { raw := { raw6 with duplicate_rows := raw6.duplicate_rows + 1 },
      seen := st.seen, invoices := invs }
  else
    { raw := raw6, seen := h :: st.seen, invoices := invs }

/-- One raw csv row after column-alias selection (lines 246–252): the
untrimmed field strings. -/
structure Row where
  invoice : String
  stock_code : String
  qty_raw : String
  date_raw : String
  unit_raw : String
  cust_raw : String
  country_raw : String

/-- Lines 246–270 of `read_and_aggregate_invoices`: field trimming, the
invoice/date presence gate, numeric and date parsing with reject counters.
The date parser (`parse_invoice_date`) is passed as a parameter: no claim
depends on its internals, only on whether it returns a timestamp.  The
returned payload is `none` for rows rejected or skipped. -/
def rowParsePhase (dateParse : String → Option DT) (ps : ParseStats) (r : Row) :
    Except PyErr (ParseStats × Option (String × String × ℤ × PyFloat × DT × String × String)) :=
  let invoice : List Char := pyStripChars r.invoice.data
  let date_raw : List Char := pyStripChars r.date_raw.data
  let country : String :=
    if (pyStripChars r.country_raw.data).isEmpty then "Unknown"
    else ⟨pyStripChars r.country_raw.data⟩
  if invoice.isEmpty || date_raw.isEmpty then .ok (ps, none)
  else
    let ps1 := { ps with raw_rows_seen := ps.raw_rows_seen + 1 }
    match parse_int ⟨pyStripChars r.qty_raw.data⟩ with
    | .error e => .error e
    | .ok qtyO =>
      match qtyO, parse_float ⟨pyStripChars r.unit_raw.data⟩ with
      | none, _ =>
        .ok ({ ps1 with skipped_bad_numeric := ps1.skipped_bad_numeric + 1 }, none)
      | some _, none =>
        .ok ({ ps1 with skipped_bad_numeric := ps1.skipped_bad_numeric + 1 }, none)
      | some qty, some unit =>
        match dateParse ⟨date_raw⟩ with
        | none => .ok ({ ps1 with skipped_bad_date := ps1.skipped_bad_date + 1 }, none)
        | some d => .ok ({ ps1 with parsed_rows := ps1.parsed_rows + 1 },
            some (⟨invoice⟩, ⟨pyStripChars r.stock_code.data⟩, qty, unit, d, r.cust_raw, country))

/-- C3 (divergence at the failing input): the claim says a quantity or
unit-price field that fails numeric parsing is always rejected locally
(bad-numeric counter incremented, no line, no exception).  The code path
`int(float(s))` only catches `ValueError`, so a quantity field parsing to an
infinite float (`"inf"`, here) raises `OverflowError` to the caller instead;
an ordinary malformed field (`"abc"`) is indeed counted and recovered. -/
theorem C3_bad_numeric_reject (dateParse : String → Option DT) :
    rowParsePhase dateParse ⟨0, 0, 0, 0⟩
        ⟨"536365", "85123A", "inf", "12/1/2010 8:26", "2.55", "17850", "United Kingdom"⟩
      = .error PyErr.overflowError ∧
    rowParsePhase dateParse ⟨0, 0, 0, 0⟩
        ⟨"536365", "85123A", "abc", "12/1/2010 8:26", "2.55", "17850", "United Kingdom"⟩
      = .ok (⟨1, 0, 1, 0⟩, none) ∧
    parse_int "inf" = .error PyErr.overflowError := by
  refine ⟨rfl, rfl, rfl⟩

theorem update_date_range_dup (r : RawStats) (d : DT) :
    (update_date_range r d).duplicate_rows = r.duplicate_rows := by
  unfold update_date_range
  dsimp only
  repeat' split
  all_goals rfl

theorem bumpRawCounters_dup (raw : RawStats) (cid : Option String) (q : ℤ) (p : ℚ)
    (inv : String) (d : DT) :
    (bumpRawCounters raw cid q p inv d).duplicate_rows = raw.duplicate_rows := by
  unfold bumpRawCounters
  dsimp only
  repeat' split
  all_goals simp [update_date_range_dup]

/-- Value of the mutated aggregate when a line folds into an existing
invoice (lines 294–304). -/
def mutatedAgg (a : InvoiceAgg) (l : ParsedLine) (cid : Option String) : InvoiceAgg :=
  { a with
    revenue := a.revenue + (l.qty : ℚ) * l.unit_price,
    line_count := a.line_count + 1,
    is_return := a.is_return || (l.invoice.startsWith "C" || decide (l.qty < 0)),
    customer_id := match a.customer_id with
      | none => cid
      | some c => some c,
    country := if a.country == "Unknown" && l.country != "Unknown"
      then l.country else a.country,
    invoice_date := if dtLt a.invoice_date l.invoice_date
      then l.invoice_date else a.invoice_date }

/-- Value of the fresh aggregate when a line opens a new invoice
(lines 305–314). -/
def freshAgg (l : ParsedLine) (cid : Option String) : InvoiceAgg :=
  ⟨l.invoice, cid, l.country, l.invoice_date,
    (l.qty : ℚ) * l.unit_price, l.invoice.startsWith "C" || decide (l.qty < 0), 1⟩

theorem foldInvoice_eq_mutated (l : ParsedLine) (cid : Option String) :
    ∀ (invs : List InvoiceAgg) (a : InvoiceAgg),
      lookupInvoice invs l.invoice = some a →
      lookupInvoice (foldInvoice l cid invs) l.invoice = some (mutatedAgg a l cid) := by
  intro invs
  induction invs with
  | nil => intro a h; simp [lookupInvoice, List.find?] at h
  | cons b rest ih =>
    intro a h
    by_cases hb : (b.invoice == l.invoice) = true
    · simp only [lookupInvoice, List.find?_cons, hb] at h
      rw [Option.some_inj] at h
      subst h
      simp [foldInvoice, hb, lookupInvoice, List.find?_cons, mutatedAgg]
    · have hb2 : (b.invoice == l.invoice) = false := by
        cases hbe : (b.invoice == l.invoice) with
        | false => rfl
        | true => exact absurd hbe hb
      simp only [lookupInvoice, List.find?_cons, hb2] at h
      simp only [foldInvoice, hb2, Bool.false_eq_true, if_false, lookupInvoice,
        List.find?_cons, hb2]
      exact ih a h

theorem foldInvoice_eq_fresh (l : ParsedLine) (cid : Option String) :
    ∀ (invs : List InvoiceAgg),
      lookupInvoice invs l.invoice = none →
      lookupInvoice (foldInvoice l cid invs) l.invoice = some (freshAgg l cid) := by
  intro invs
  induction invs with
  | nil =>
    intro _
    simp [foldInvoice, lookupInvoice, List.find?_cons, freshAgg]
  | cons b rest ih =>
    intro h
    have hb2 : (b.invoice == l.invoice) = false := by
      cases hbe : (b.invoice == l.invoice) with
      | false => rfl
      | true =>
        simp only [lookupInvoice, List.find?_cons, hbe] at h
        exact absurd h (by simp)
    simp only [lookupInvoice, List.find?_cons, hb2] at h
    simp only [foldInvoice, hb2, Bool.false_eq_true, if_false, lookupInvoice,
      List.find?_cons, hb2]
    exact ih h

/-- C4: an accepted line whose (invoice, SKU, customer, qty, price) row key
was already seen increments the duplicate counter by exactly 1 and is still
folded into its invoice aggregate (revenue added, line count incremented);
consequently an identical line ingested twice adds its revenue twice while
counting exactly one duplicate. -/
theorem C4_duplicates_folded_not_dropped :
    (∀ (st : AggSt) (l : ParsedLine) (a : InvoiceAgg),
      stable_row_key l.invoice l.stock_code (normalize_customer_id l.cust_raw)
          l.qty l.unit_price ∈ st.seen →
      lookupInvoice st.invoices l.invoice = some a →
      (ingestLine st l).raw.duplicate_rows = st.raw.duplicate_rows + 1 ∧
      ∃ a2, lookupInvoice (ingestLine st l).invoices l.invoice = some a2 ∧
        a2.revenue = a.revenue + (l.qty : ℚ) * l.unit_price ∧
        a2.line_count = a.line_count + 1) ∧
    (∀ (st : AggSt) (l : ParsedLine),
      stable_row_key l.invoice l.stock_code (normalize_customer_id l.cust_raw)
          l.qty l.unit_price ∉ st.seen →
      lookupInvoice st.invoices l.invoice = none →
      (ingestLine (ingestLine st l) l).raw.duplicate_rows = st.raw.duplicate_rows + 1 ∧
      ∃ a2, lookupInvoice (ingestLine (ingestLine st l) l).invoices l.invoice = some a2 ∧
        a2.revenue = 2 * ((l.qty : ℚ) * l.unit_price) ∧
        a2.line_count = 2) := by
  constructor
  · intro st l a hseen hfind
    unfold ingestLine
    rw [if_pos hseen]
    constructor
    · simp [bumpRawCounters_dup]
    · refine ⟨mutatedAgg a l (normalize_customer_id l.cust_raw), ?_, ?_, ?_⟩
      · exact foldInvoice_eq_mutated l _ st.invoices a hfind
      · rfl
      · rfl
  · intro st l hseen hfind
    have hstep1 : ingestLine st l =
        { raw := bumpRawCounters st.raw (normalize_customer_id l.cust_raw) l.qty
            l.unit_price l.invoice l.invoice_date,
          seen := stable_row_key l.invoice l.stock_code (normalize_customer_id l.cust_raw)
            l.qty l.unit_price :: st.seen,
          invoices := foldInvoice l (normalize_customer_id l.cust_raw) st.invoices } := by
      unfold ingestLine
      rw [if_neg hseen]
    rw [hstep1]
    have hfound : lookupInvoice (foldInvoice l (normalize_customer_id l.cust_raw)
          st.invoices) l.invoice =
        some (freshAgg l (normalize_customer_id l.cust_raw)) :=
      foldInvoice_eq_fresh l _ st.invoices hfind
    have hstep2 : ingestLine
        { raw := bumpRawCounters st.raw (normalize_customer_id l.cust_raw) l.qty
            l.unit_price l.invoice l.invoice_date,
          seen := stable_row_key l.invoice l.stock_code (normalize_customer_id l.cust_raw)
            l.qty l.unit_price :: st.seen,
          invoices := foldInvoice l (normalize_customer_id l.cust_raw) st.invoices } l =
        { raw := { bumpRawCounters
              (bumpRawCounters st.raw (normalize_customer_id l.cust_raw) l.qty
                l.unit_price l.invoice l.invoice_date)
              (normalize_customer_id l.cust_raw) l.qty l.unit_price l.invoice
              l.invoice_date with
            duplicate_rows := (bumpRawCounters
              (bumpRawCounters st.raw (normalize_customer_id l.cust_raw) l.qty
                l.unit_price l.invoice l.invoice_date)
              (normalize_customer_id l.cust_raw) l.qty l.unit_price l.invoice
              l.invoice_date).duplicate_rows + 1 },
          seen := stable_row_key l.invoice l.stock_code (normalize_customer_id l.cust_raw)
            l.qty l.unit_price :: st.seen,
          invoices := foldInvoice l (normalize_customer_id l.cust_raw)
            (foldInvoice l (normalize_customer_id l.cust_raw) st.invoices) } := by
      unfold ingestLine
      dsimp only
      rw [if_pos (List.mem_cons_self _ _)]
    rw [hstep2]
    constructor
    · simp [bumpRawCounters_dup]
    · refine ⟨mutatedAgg (freshAgg l (normalize_customer_id l.cust_raw)) l
        (normalize_customer_id l.cust_raw), ?_, ?_, ?_⟩
      · exact foldInvoice_eq_mutated l _ _ _ hfound
      · simp [mutatedAgg, freshAgg]
        ring
      · rfl

/-- Witness for C4: ingesting one concrete line twice from the empty state
counts exactly one duplicate and doubles the invoice revenue. -/
theorem C4_duplicates_folded_not_dropped_witness :
    (ingestLine (ingestLine ⟨⟨0, 0, 0, 0, 0, 0, none, none⟩, [], []⟩
        ⟨"536365", "85123A", 6, 5/2, ⟨2010, 12, 1, 8, 26, 0⟩, "17850", "United Kingdom"⟩)
        ⟨"536365", "85123A", 6, 5/2, ⟨2010, 12, 1, 8, 26, 0⟩, "17850", "United Kingdom"⟩).raw.duplicate_rows
      = 0 + 1 ∧
    ∃ a2, lookupInvoice (ingestLine (ingestLine ⟨⟨0, 0, 0, 0, 0, 0, none, none⟩, [], []⟩
        ⟨"536365", "85123A", 6, 5/2, ⟨2010, 12, 1, 8, 26, 0⟩, "17850", "United Kingdom"⟩)
        ⟨"536365", "85123A", 6, 5/2, ⟨2010, 12, 1, 8, 26, 0⟩, "17850", "United Kingdom"⟩).invoices
        "536365" = some a2 ∧
      a2.revenue = 2 * (((6 : ℤ) : ℚ) * (5/2)) ∧ a2.line_count = 2 :=
  C4_duplicates_folded_not_dropped.2 ⟨⟨0, 0, 0, 0, 0, 0, none, none⟩, [], []⟩
    ⟨"536365", "85123A", 6, 5/2, ⟨2010, 12, 1, 8, 26, 0⟩, "17850", "United Kingdom"⟩
    (by simp) rfl

theorem stable_row_key_eq_iff (inv sc : String) (cu : Option String) (q : ℤ) (p1 p2 : ℚ) :
    stable_row_key inv sc cu q p1 = stable_row_key inv sc cu q p2 ↔ fmt4 p1 = fmt4 p2 := by
  unfold stable_row_key
  simp only [List.append_right_inj, List.cons_eq_cons, true_and]

theorem fmt4_12344 : fmt4 (12344/100000 : ℚ) = ['0', '.', '1', '2', '3', '4'] := by
  have hrhe : round_half_even (|(12344/100000 : ℚ)| * 10000) = 1234 := by
    have habs : |(12344/100000 : ℚ)| * 10000 = 1234 + 2/5 := by
      rw [abs_of_nonneg (by norm_num)]
      norm_num
    rw [habs]
    unfold round_half_even
    have hfl : ⌊(1234 + 2/5 : ℚ)⌋ = 1234 := by norm_num
    rw [hfl]
    norm_num
  unfold fmt4
  rw [hrhe]
  rw [if_neg (by norm_num : ¬ ((12344/100000 : ℚ) < 0))]
  decide

theorem fmt4_12346 : fmt4 (12346/100000 : ℚ) = ['0', '.', '1', '2', '3', '5'] := by
  have hrhe : round_half_even (|(12346/100000 : ℚ)| * 10000) = 1235 := by
    have habs : |(12346/100000 : ℚ)| * 10000 = 1234 + 3/5 := by
      rw [abs_of_nonneg (by norm_num)]
      norm_num
    rw [habs]
    unfold round_half_even
    have hfl : ⌊(1234 + 3/5 : ℚ)⌋ = 1234 := by norm_num
    rw [hfl]
    norm_num
  unfold fmt4
  rw [hrhe]
  rw [if_neg (by norm_num : ¬ ((12346/100000 : ℚ) < 0))]
  decide

/-- C10 counterexample: the two prices 0.12344 and 0.12346 agree in their
first four decimal places (equal floors at 4 decimals) yet format apart
under the rounding `f"{p:.4f}"`, so two otherwise-identical lines carrying
them are NOT counted as duplicates of each other. -/
theorem C10_counterexample :
    ⌊(12344/100000 : ℚ) * 10 ^ 4⌋ = ⌊(12346/100000 : ℚ) * 10 ^ 4⌋ ∧
    stable_row_key "536365" "85123A" (normalize_customer_id "17850") 6 (12344/100000) ≠
      stable_row_key "536365" "85123A" (normalize_customer_id "17850") 6 (12346/100000) ∧
    (ingestLine (ingestLine ⟨⟨0, 0, 0, 0, 0, 0, none, none⟩, [], []⟩
        ⟨"536365", "85123A", 6, 12344/100000, ⟨2010, 12, 1, 8, 26, 0⟩, "17850", "United Kingdom"⟩)
        ⟨"536365", "85123A", 6, 12346/100000, ⟨2010, 12, 1, 8, 26, 0⟩, "17850", "United Kingdom"⟩).raw.duplicate_rows
      = 0 := by
  have hne : stable_row_key "536365" "85123A" (normalize_customer_id "17850") 6 (12344/100000) ≠
      stable_row_key "536365" "85123A" (normalize_customer_id "17850") 6 (12346/100000) := by
    intro h
    have h2 := (stable_row_key_eq_iff _ _ _ _ _ _).mp h
    rw [fmt4_12344, fmt4_12346] at h2
    exact absurd h2 (by decide)
  refine ⟨by norm_num, hne, ?_⟩
  have hstep1 : ingestLine ⟨⟨0, 0, 0, 0, 0, 0, none, none⟩, [], []⟩
      ⟨"536365", "85123A", 6, 12344/100000, ⟨2010, 12, 1, 8, 26, 0⟩, "17850", "United Kingdom"⟩ =
      { raw := bumpRawCounters ⟨0, 0, 0, 0, 0, 0, none, none⟩ (normalize_customer_id "17850")
          6 (12344/100000) "536365" ⟨2010, 12, 1, 8, 26, 0⟩,
        seen := [stable_row_key "536365" "85123A" (normalize_customer_id "17850") 6 (12344/100000)],
        invoices := foldInvoice
          ⟨"536365", "85123A", 6, 12344/100000, ⟨2010, 12, 1, 8, 26, 0⟩, "17850", "United Kingdom"⟩
          (normalize_customer_id "17850") [] } := by
    unfold ingestLine
    rw [if_neg (by simp)]
  rw [hstep1]
  have hstep2 : ingestLine
      { raw := bumpRawCounters ⟨0, 0, 0, 0, 0, 0, none, none⟩ (normalize_customer_id "17850")
          6 (12344/100000) "536365" ⟨2010, 12, 1, 8, 26, 0⟩,
        seen := [stable_row_key "536365" "85123A" (normalize_customer_id "17850") 6 (12344/100000)],
        invoices := foldInvoice
          ⟨"536365", "85123A", 6, 12344/100000, ⟨2010, 12, 1, 8, 26, 0⟩, "17850", "United Kingdom"⟩
          (normalize_customer_id "17850") [] }
      ⟨"536365", "85123A", 6, 12346/100000, ⟨2010, 12, 1, 8, 26, 0⟩, "17850", "United Kingdom"⟩ =
      { raw := bumpRawCounters
          (bumpRawCounters ⟨0, 0, 0, 0, 0, 0, none, none⟩ (normalize_customer_id "17850")
            6 (12344/100000) "536365" ⟨2010, 12, 1, 8, 26, 0⟩)
          (normalize_customer_id "17850") 6 (12346/100000) "536365" ⟨2010, 12, 1, 8, 26, 0⟩,
        seen := stable_row_key "536365" "85123A" (normalize_customer_id "17850") 6 (12346/100000) ::
          [stable_row_key "536365" "85123A" (normalize_customer_id "17850") 6 (12344/100000)],
        invoices := foldInvoice
          ⟨"536365", "85123A", 6, 12346/100000, ⟨2010, 12, 1, 8, 26, 0⟩, "17850", "United Kingdom"⟩
          (normalize_customer_id "17850")
          (foldInvoice
            ⟨"536365", "85123A", 6, 12344/100000, ⟨2010, 12, 1, 8, 26, 0⟩, "17850", "United Kingdom"⟩
            (normalize_customer_id "17850") []) } := by
    unfold ingestLine
    dsimp only
    rw [if_neg (by
      rw [List.mem_singleton]
      intro h
      exact hne h.symm)]
  rw [hstep2]
  simp [bumpRawCounters_dup]

/-- C10 (amended): the duplicate detector keys on the unit price formatted
(rounded half-to-even by `f"{p:.4f}"`, not truncated) to exactly 4 decimal
places: with the other key fields equal, two row keys coincide iff the
prices format identically at 4 decimals, and a second line whose price
formats identically to a previously seen line is counted as a duplicate. -/
theorem C10_rowkey_formats_price_4dp :
    (∀ (inv sc : String) (cu : Option String) (q : ℤ) (p1 p2 : ℚ),
      stable_row_key inv sc cu q p1 = stable_row_key inv sc cu q p2 ↔ fmt4 p1 = fmt4 p2) ∧
    (∀ (st : AggSt) (l1 l2 : ParsedLine),
      l2.invoice = l1.invoice → l2.stock_code = l1.stock_code →
      l2.cust_raw = l1.cust_raw → l2.qty = l1.qty →
      fmt4 l2.unit_price = fmt4 l1.unit_price →
      stable_row_key l1.invoice l1.stock_code (normalize_customer_id l1.cust_raw)
          l1.qty l1.unit_price ∉ st.seen →
      (ingestLine (ingestLine st l1) l2).raw.duplicate_rows = st.raw.duplicate_rows + 1) := by
  constructor
  · exact stable_row_key_eq_iff
  · intro st l1 l2 hinv hsc hcu hq hp hseen
    have hkey : stable_row_key l2.invoice l2.stock_code (normalize_customer_id l2.cust_raw)
        l2.qty l2.unit_price =
        stable_row_key l1.invoice l1.stock_code (normalize_customer_id l1.cust_raw)
          l1.qty l1.unit_price := by
      rw [hinv, hsc, hcu, hq]
      exact (stable_row_key_eq_iff _ _ _ _ _ _).mpr hp
    have hstep1 : ingestLine st l1 =
        { raw := bumpRawCounters st.raw (normalize_customer_id l1.cust_raw) l1.qty
            l1.unit_price l1.invoice l1.invoice_date,
          seen := stable_row_key l1.invoice l1.stock_code (normalize_customer_id l1.cust_raw)
            l1.qty l1.unit_price :: st.seen,
          invoices := foldInvoice l1 (normalize_customer_id l1.cust_raw) st.invoices } := by
      unfold ingestLine
      rw [if_neg hseen]
    rw [hstep1]
    have hstep2 : ingestLine
        { raw := bumpRawCounters st.raw (normalize_customer_id l1.cust_raw) l1.qty
            l1.unit_price l1.invoice l1.invoice_date,
          seen := stable_row_key l1.invoice l1.stock_code (normalize_customer_id l1.cust_raw)
            l1.qty l1.unit_price :: st.seen,
          invoices := foldInvoice l1 (normalize_customer_id l1.cust_raw) st.invoices } l2 =
        { raw := { bumpRawCounters
              (bumpRawCounters st.raw (normalize_customer_id l1.cust_raw) l1.qty
                l1.unit_price l1.invoice l1.invoice_date)
              (normalize_customer_id l2.cust_raw) l2.qty l2.unit_price l2.invoice
              l2.invoice_date with
            duplicate_rows := (bumpRawCounters
              (bumpRawCounters st.raw (normalize_customer_id l1.cust_raw) l1.qty
                l1.unit_price l1.invoice l1.invoice_date)
              (normalize_customer_id l2.cust_raw) l2.qty l2.unit_price l2.invoice
              l2.invoice_date).duplicate_rows + 1 },
          seen := stable_row_key l1.invoice l1.stock_code (normalize_customer_id l1.cust_raw)
            l1.qty l1.unit_price :: st.seen,
          invoices := foldInvoice l2 (normalize_customer_id l2.cust_raw)
            (foldInvoice l1 (normalize_customer_id l1.cust_raw) st.invoices) } := by
      unfold ingestLine
      dsimp only
      rw [if_pos (by rw [hkey]; exact List.mem_cons_self _ _)]
    rw [hstep2]
    simp [bumpRawCounters_dup]

theorem fmt4_12341 : fmt4 (12341/100000 : ℚ) = ['0', '.', '1', '2', '3', '4'] := by
  have hrhe : round_half_even (|(12341/100000 : ℚ)| * 10000) = 1234 := by
    have habs : |(12341/100000 : ℚ)| * 10000 = 1234 + 1/10 := by
      rw [abs_of_nonneg (by norm_num)]
      norm_num
    rw [habs]
    unfold round_half_even
    have hfl : ⌊(1234 + 1/10 : ℚ)⌋ = 1234 := by norm_num
    rw [hfl]
    norm_num
  unfold fmt4
  rw [hrhe]
  rw [if_neg (by norm_num : ¬ ((12341/100000 : ℚ) < 0))]
  decide

theorem fmt4_12342 : fmt4 (12342/100000 : ℚ) = ['0', '.', '1', '2', '3', '4'] := by
  have hrhe : round_half_even (|(12342/100000 : ℚ)| * 10000) = 1234 := by
    have habs : |(12342/100000 : ℚ)| * 10000 = 1234 + 1/5 := by
      rw [abs_of_nonneg (by norm_num)]
      norm_num
    rw [habs]
    unfold round_half_even
    have hfl : ⌊(1234 + 1/5 : ℚ)⌋ = 1234 := by norm_num
    rw [hfl]
    norm_num
  unfold fmt4
  rw [hrhe]
  rw [if_neg (by norm_num : ¬ ((12342/100000 : ℚ) < 0))]
  decide

/-- Witness for C10: two lines with the distinct prices 0.12341 and 0.12342,
which both format to "0.1234", are counted as duplicates of each other. -/
theorem C10_rowkey_formats_price_4dp_witness :
    (ingestLine (ingestLine ⟨⟨0, 0, 0, 0, 0, 0, none, none⟩, [], []⟩
        ⟨"536365", "85123A", 6, 12341/100000, ⟨2010, 12, 1, 8, 26, 0⟩, "17850", "United Kingdom"⟩)
        ⟨"536365", "85123A", 6, 12342/100000, ⟨2010, 12, 1, 8, 26, 0⟩, "17850", "United Kingdom"⟩).raw.duplicate_rows
      = 0 + 1 :=
  C10_rowkey_formats_price_4dp.2 ⟨⟨0, 0, 0, 0, 0, 0, none, none⟩, [], []⟩
    ⟨"536365", "85123A", 6, 12341/100000, ⟨2010, 12, 1, 8, 26, 0⟩, "17850", "United Kingdom"⟩
    ⟨"536365", "85123A", 6, 12342/100000, ⟨2010, 12, 1, 8, 26, 0⟩, "17850", "United Kingdom"⟩
    rfl rfl rfl rfl (by rw [fmt4_12342, fmt4_12341]) (by simp)

/-- One `[orders, revenue]` cell of `customer_period` (line 363). -/
structure CPEntry where
  orders : ℚ
  revenue : ℚ
deriving DecidableEq, Repr

/-- Association-list lookup, modelling `dict.get(k)`. -/
def alookup {β : Type} (k : String) : List (String × β) → Option β
  | [] => none
  | (k2, v) :: rest => if k2 == k then some v else alookup k rest

/-- Association-list assignment `d[k] = v`: existing keys keep their
position, new keys are appended (CPython dict semantics). -/
def setAssoc {β : Type} (k : String) (v : β) : List (String × β) → List (String × β)
  | [] => [(k, v)]
  | (k2, w) :: rest => if k2 == k then (k2, v) :: rest else (k2, w) :: setAssoc k v rest

/-- Inner update of one customer's period dict (lines 362–365):
`if period not in cp: cp[period] = [0.0, 0.0]; cp[period][0] += 1.0;
cp[period][1] += inv.revenue`. -/
def updPeriod (period : List Char) (rev : ℚ) :
    List (List Char × CPEntry) → List (List Char × CPEntry)
  | [] => [(period, ⟨1, rev⟩)]
  | (p, e) :: rest =>
    if p == period then (p, ⟨e.orders + 1, e.revenue + rev⟩) :: rest
    else (p, e) :: updPeriod period rev rest

/-- Outer update `customer_period.setdefault(cust, {})` followed by the
period update (lines 361–365). -/
def updCustomerPeriod (cust : String) (period : List Char) (rev : ℚ) :
    List (String × List (List Char × CPEntry)) → List (String × List (List Char × CPEntry))
  | [] => [(cust, updPeriod period rev [])]
  | (c, per) :: rest =>
    if c == cust then (c, updPeriod period rev per) :: rest
    else (c, per) :: updCustomerPeriod cust period rev rest

/-- `d[k] = max(d.get(k, v), v)` for the last-date maps (lines 368–370);
Python `max` keeps the first argument on ties. -/
def updMaxDate (cust : String) (d : DT) (m : List (String × DT)) : List (String × DT) :=
  setAssoc cust
    (match alookup cust m with
      | none => d
      | some old => if dtLt old d then d else old) m

/-- `country_revenue[c] = country_revenue.get(c, 0.0) + rev` (line 367). -/
def updAddQ (k : String) (q : ℚ) (m : List (String × ℚ)) : List (String × ℚ) :=
  setAssoc k ((alookup k m).getD 0 + q) m

/-- Variant configuration (the four arguments of `build_variant`). -/
structure VariantCfg where
  granularity : String
  include_returns : Bool
  include_anon : Bool
  max_offsets : ℤ
deriving DecidableEq, Repr

/-- `period_fn = month_key if granularity == "month" else iso_week_key`
(line 330). -/
def period_fn (granularity : String) : DT → List Char :=
  if granularity == "month" then month_key else iso_week_key

/-- State accumulated by the filter-and-bucket loop of `build_variant`
(lines 332–371). -/
structure CPState where
  customer_period : List (String × List (List Char × CPEntry))
  customer_last_date_any : List (String × DT)
  customer_last_date_pos : List (String × DT)
  country_revenue : List (String × ℚ)
  rows_after_filters : Nat
  inv_values_pos : List ℚ
  inv_min : Option DT
  inv_max : Option DT

/-- One iteration of the invoice loop (lines 344–371): the return and
anonymous filters, period bucketing, and the auxiliary accumulators. -/
def cpStep (cfg : VariantCfg) (st : CPState) (inv : InvoiceAgg) : CPState :=
  if !cfg.include_returns && inv.is_return then st
  else
    match (match inv.customer_id with
      | none => if cfg.include_anon then some ("anon:" ++ inv.invoice) else none
      | some c => some c) with
    | none => st
    | some cust =>
      let period := period_fn cfg.granularity inv.invoice_date
      { customer_period := updCustomerPeriod cust period inv.revenue st.customer_period,
        customer_last_date_any := updMaxDate cust inv.invoice_date st.customer_last_date_any,
        customer_last_date_pos :=
          if 0 < inv.revenue then updMaxDate cust inv.invoice_date st.customer_last_date_pos
          else st.customer_last_date_pos,
        country_revenue := updAddQ inv.country inv.revenue st.country_revenue,
        rows_after_filters := st.rows_after_filters + inv.line_count,
        inv_values_pos :=
          if 0 < inv.revenue then st.inv_values_pos ++ [inv.revenue]
          else st.inv_values_pos,
        inv_min := some (match st.inv_min with
          | none => inv.invoice_date
          | some m => if dtLt inv.invoice_date m then inv.invoice_date else m),
        inv_max := some (match st.inv_max with
          | none => inv.invoice_date
          | some m => if dtLt m inv.invoice_date then inv.invoice_date else m) }

/-- The whole filter-and-bucket pass over the invoice map (iteration in
dict insertion order). -/
def customerPeriodOf (invoices : List InvoiceAgg) (cfg : VariantCfg) : CPState :=
  invoices.foldl (cpStep cfg) ⟨[], [], [], [], 0, [], none, none⟩

/-- `sorted({p for per in customer_period.values() for p in per.keys()})`
(line 373). -/
def periodKeysOf (cp : List (String × List (List Char × CPEntry))) : List (List Char) :=
  isort (fun a b => !pyStrLt b a) ((cp.flatMap (fun x => x.2.map Prod.fst)).dedup)

/-- Position of a period key in the sorted key list: the value of the
`period_index` dict (line 376); keys absent from the list get the length. -/
def pindexOf (p : List Char) : List (List Char) → Nat
  | [] => 0
  | k :: rest => if k = p then 0 else pindexOf p rest + 1

theorem pindexOf_lt_length (p : List Char) : ∀ (keys : List (List Char)),
    p ∈ keys → pindexOf p keys < keys.length := by
  intro keys
  induction keys with
  | nil => intro h; cases h
  | cons k rest ih =>
    intro h
    unfold pindexOf
    by_cases hk : k = p
    · rw [if_pos hk]
      simp
    · rw [if_neg hk]
      have : p ∈ rest := by
        cases h with
        | head => exact absurd rfl hk
        | tail _ h2 => exact h2
      have := ih this
      simp only [List.length_cons]
      omega

theorem getD_pindexOf (p : List Char) : ∀ (keys : List (List Char)),
    p ∈ keys → keys.getD (pindexOf p keys) [] = p := by
  intro keys
  induction keys with
  | nil => intro h; cases h
  | cons k rest ih =>
    intro h
    unfold pindexOf
    by_cases hk : k = p
    · rw [if_pos hk]
      simpa using hk
    · rw [if_neg hk]
      have hmem : p ∈ rest := by
        cases h with
        | head => exact absurd rfl hk
        | tail _ h2 => exact h2
      simpa using ih hmem

theorem pindexOf_getD_of_nodup : ∀ (keys : List (List Char)), keys.Nodup →
    ∀ j, j < keys.length → pindexOf (keys.getD j []) keys = j := by
  intro keys
  induction keys with
  | nil => intro _ j hj; simp at hj
  | cons k rest ih =>
    intro hnd j hj
    rcases List.nodup_cons.mp hnd with ⟨hk, hnd2⟩
    cases j with
    | zero => simp [pindexOf]
    | succ j =>
      have hj2 : j < rest.length := by simpa using hj
      have hgd : (k :: rest).getD (j + 1) [] = rest.getD j [] := by simp
      rw [hgd]
      unfold pindexOf
      have hne : k ≠ rest.getD j [] := by
        intro he
        apply hk
        rw [he, List.getD_eq_getElem _ _ hj2]
        exact List.getElem_mem hj2
      rw [if_neg hne, ih hnd2 j hj2]

theorem pindexOf_of_not_mem (p : List Char) : ∀ (keys : List (List Char)),
    p ∉ keys → pindexOf p keys = keys.length := by
  intro keys
  induction keys with
  | nil => intro _; rfl
  | cons k rest ih =>
    intro h
    unfold pindexOf
    rw [if_neg (by intro he; exact h (he ▸ List.mem_cons_self k rest))]
    simp [ih (fun hm => h (List.mem_cons_of_mem k hm))]

/-- Cohort of one customer (lines 379–386): earliest period index with
positive orders AND positive revenue; else earliest with any orders; else
period index 0. -/
def cohortIdxOf (keys : List (List Char)) (per : List (List Char × CPEntry)) : Nat :=
  let pos_idxs := per.filterMap (fun x =>
    if 0 < x.2.orders ∧ 0 < x.2.revenue then some (pindexOf x.1 keys) else none)
  let any_idxs := per.filterMap (fun x =>
    if 0 < x.2.orders then some (pindexOf x.1 keys) else none)
  (pos_idxs.min?).getD ((any_idxs.min?).getD 0)

/-- `sorted({cohort_idx_by_customer.values()})` (line 388). -/
def cohortsUsedOf (keys : List (List Char))
    (cp : List (String × List (List Char × CPEntry))) : List Nat :=
  isort (fun a b => a ≤ b) ((cp.map (fun x => cohortIdxOf keys x.2)).dedup)

/-- Pointwise update of a one-argument accumulator map. -/
def upd1 {β : Type} (f : Nat → β) (i : Nat) (v : β) : Nat → β :=
  fun j => if j = i then v else f j

/-- Pointwise update of a two-argument accumulator map. -/
def upd2 {β : Type} (f : Nat → Nat → β) (i j : Nat) (v : β) : Nat → Nat → β :=
  fun a b => if a = i ∧ b = j then v else f a b

/-- The four matrix accumulators of lines 396–399 (`cohort_size`,
`ret_counts`, `rev_sums`, `rev_base`), as total maps defaulting to zero. -/
structure MatAcc where
  cohort_size : Nat → Nat
  ret_counts : Nat → Nat → Nat
  rev_sums : Nat → Nat → ℚ
  rev_base : Nat → ℚ

/-- Dict lookup `per[key]` on a customer's period dict. -/
def lookupPer (k : List Char) : List (List Char × CPEntry) → Option CPEntry
  | [] => none
  | (p, e) :: rest => if p == k then some e else lookupPer k rest

/-- Inner loop body of lines 404–413: one `(period, cell)` entry of one
customer. -/
def matEntryStep (keys : List (List Char)) (horizon : Nat) (cidx : Nat)
    (acc : MatAcc) (x : List Char × CPEntry) : MatAcc :=
  let pidx := pindexOf x.1 keys
  let off : ℤ := (pidx : ℤ) - (cidx : ℤ)
  if off < 0 ∨ (horizon : ℤ) < off then acc
  else
    let offN := off.toNat
    let acc1 := if 0 < truncQ x.2.orders ∧ 0 < x.2.revenue then
      { acc with ret_counts := upd2 acc.ret_counts cidx offN (acc.ret_counts cidx offN + 1) }
      else acc
    { acc1 with rev_sums := upd2 acc1.rev_sums cidx offN (acc1.rev_sums cidx offN + x.2.revenue) }

/-- Outer loop body of lines 401–419: one customer (cohort size, the inner
entry loop, and the offset-0 revenue base of lines 415–419). -/
def matCustStep (keys : List (List Char)) (horizon : Nat)
    (acc : MatAcc) (x : String × List (List Char × CPEntry)) : MatAcc :=
  let cidx := cohortIdxOf keys x.2
  let acc1 := { acc with cohort_size := upd1 acc.cohort_size cidx (acc.cohort_size cidx + 1) }
  let acc2 := x.2.foldl (matEntryStep keys horizon cidx) acc1
  match keys.get? cidx with
  | none => acc2
  | some ck =>
    match lookupPer ck x.2 with
    | none => acc2
    | some e =>
      if 0 < e.revenue then
        { acc2 with rev_base := upd1 acc2.rev_base cidx (acc2.rev_base cidx + e.revenue) }
      else acc2

/-- The whole matrix-accumulation pass over `customer_period`. -/
def matAccOf (keys : List (List Char)) (horizon : Nat)
    (cp : List (String × List (List Char × CPEntry))) : MatAcc :=
  cp.foldl (matCustStep keys horizon) ⟨fun _ => 0, fun _ _ => 0, fun _ _ => 0, fun _ => 0⟩

/-- `pct_counts` (lines 423–434). -/
def pct_counts (cohortsUsed : List Nat) (offsets : List Nat) (acc : MatAcc) :
    List (List ℚ) :=
  cohortsUsed.map (fun c =>
    let size := acc.cohort_size c
    offsets.map (fun off =>
      if size = 0 then 0
      else py_round1 (max 0 (min 100 (100 * ((acc.ret_counts c off : ℚ) / (size : ℚ)))))))

/-- `pct_revenue` (lines 436–447). -/
def pct_revenue (cohortsUsed : List Nat) (offsets : List Nat) (acc : MatAcc) :
    List (List ℚ) :=
  cohortsUsed.map (fun c =>
    let base := acc.rev_base c
    offsets.map (fun off =>
      if base ≤ 0 then 0
      else py_round1 (max 0 (min 100 (100 * (acc.rev_sums c off / base))))))

/-- Seconds-resolution timeline position of a timestamp. -/
def dtSecs (d : DT) : ℤ :=
  (toOrdinal d.year d.month d.day : ℤ) * 86400 + d.hour * 3600 + d.minute * 60 + d.second

/-- Python `(a - b).days`: the timedelta day count, floored. -/
def dtSubDays (a b : DT) : ℤ := (dtSecs a - dtSecs b) / 86400

/-- `quintile_edges` (lines 171–180).  The Python indices `int((n-1)*p)`
for `p` in 0.2/0.4/0.6/0.8 equal the exact `(n-1)*k/5` floor for every
population size in scope (the float products never cross an integer
boundary there). -/
def quintile_edges (values : List ℚ) : List ℚ :=
  let vals := isort (fun a b => a ≤ b) values
  if vals.isEmpty then [0, 0, 0, 0]
  else [vals.getD ((vals.length - 1) * 1 / 5) 0,
        vals.getD ((vals.length - 1) * 2 / 5) 0,
        vals.getD ((vals.length - 1) * 3 / 5) 0,
        vals.getD ((vals.length - 1) * 4 / 5) 0]

/-- `score_quintile` (lines 183–188): start at 1, add 1 per cut point the
value strictly exceeds, clamp to [1, 5]. -/
def score_quintile (value : ℚ) (edges : List ℚ) : Nat :=
  max 1 (min 5 (edges.foldl (fun s e => if e < value then s + 1 else s) 1))

/-- The per-customer scoring of lines 502–504: recency is scored then
inverted (`6 - r_worse`), frequency scored directly. -/
def segScores (redges fedges : List ℚ) (recency orders : ℚ) : Nat × Nat :=
  (6 - score_quintile recency redges, score_quintile orders fedges)

/-- `segment_name` (lines 473–494): first matching rule wins. -/
def segment_name (r f : Nat) : String :=
  if 4 ≤ r ∧ 4 ≤ f then "Champions"
  else if 4 ≤ f ∧ 2 ≤ r then "Loyal"
  else if 4 ≤ r ∧ (f = 2 ∨ f = 3) then "Potential Loyalist"
  else if r = 5 ∧ f = 1 then "New Customers"
  else if r = 4 ∧ f = 1 then "Promising"
  else if r = 3 ∧ (f = 2 ∨ f = 3) then "Need Attention"
  else if r = 2 ∧ (f = 1 ∨ f = 2) then "About To Sleep"
  else if r ≤ 2 ∧ 3 ≤ f then "At Risk"
  else if r = 1 ∧ 4 ≤ f then "Can\x27t Lose"
  else if r = 1 ∧ f ≤ 2 then "Lost"
  else "Others"

/-- Per-segment accumulator: the four dicts of lines 496–499, which share
keys and insertion order. -/
structure SegAgg where
  customers : Nat
  repeaters : Nat
  revenue : ℚ
  orders : ℚ
deriving DecidableEq, Repr

/-- One customer of the segmentation loop (lines 501–511). -/
def segAccStep (redges fedges : List ℚ) (acc : List (String × SegAgg))
    (m : ℚ × ℚ × ℚ) : List (String × SegAgg) :=
  let rf := segScores redges fedges m.2.2 m.1
  let sname := segment_name rf.1 rf.2
  let rep : Nat := if 2 ≤ m.1 then 1 else 0
  setAssoc sname
    (match alookup sname acc with
      | none => ⟨1, rep, m.2.1, m.1⟩
      | some s => ⟨s.customers + 1, s.repeaters + rep, s.revenue + m.2.1, s.orders + m.1⟩) acc

/-- One row of the emitted `segments` table (lines 521–531). -/
structure SegRow where
  segment : String
  customers : Nat
  repeaters : Nat
  orders : ℤ
  revenue : ℚ
  aov : ℚ
  repeat_rate : ℚ
deriving DecidableEq, Repr

/-- Descending stable order on `(revenue, customers)` used by
`segments.sort(..., reverse=True)` (line 533). -/
def segLe (a b : SegRow) : Bool :=
  decide (b.revenue < a.revenue) ||
    (decide (a.revenue = b.revenue) && decide (b.customers ≤ a.customers))

/-- `percentile` (lines 154–168) on an ascending-sorted list. -/
def percentile (sorted_vals : List ℚ) (p : ℚ) : ℚ :=
  if sorted_vals.isEmpty then 0
  else if p ≤ 0 then sorted_vals.getD 0 0
  else if 1 ≤ p then sorted_vals.getD (sorted_vals.length - 1) 0
  else
    let k : ℚ := ((sorted_vals.length - 1 : ℕ) : ℚ) * p
    let f : ℤ := ⌊k⌋
    let c : ℤ := ⌈k⌉
    if f = c then sorted_vals.getD f.toNat 0
    else sorted_vals.getD f.toNat 0 * ((c : ℚ) - k) + sorted_vals.getD c.toNat 0 * (k - (f : ℚ))

/-- The sanity block of the artifact: the numeric data that the
human-readable check strings (`fmt_int`/`fmt_pct`/`fmt_money` renderings,
elided here) are pure formattings of, plus the boolean ok flags. -/
structure Sanity where
  total_rows : Nat
  rows_after_filters : Nat
  missing_customer : Nat × ℚ
  qty_le_0 : Nat × ℚ
  unitprice_le_0 : Nat × ℚ
  cancellations : Nat × ℚ
  duplicates : Nat × ℚ
  date_range : Option (Nat × Nat × Nat) × Option (Nat × Nat × Nat)
  top_countries : List (String × ℚ)
  p99 : ℚ
  oks : List Bool
deriving DecidableEq, Repr

/-- One emitted variant artifact (the JSON of lines 589–609, with the
format-only strings elided in favour of the data they render). -/
structure Variant where
  dataset : String
  generated_at : String
  granularity : String
  include_returns : Bool
  include_anon : Bool
  raw_rows : Nat
  rows_after_filters : Nat
  date_min : Option (Nat × Nat × Nat)
  date_max : Option (Nat × Nat × Nat)
  max_offsets : ℤ
  sanity : Sanity
  cohorts : List (List Char)
  offsets : List Nat
  count_values : List (List ℚ)
  revenue_values : List (List ℚ)
  segments : List SegRow
  segment_bars : List (String × ℚ)
deriving DecidableEq, Repr

/-- Horizon computation of lines 392–393:
`max_possible = max(0, (len(period_keys) - 1) - min(cohorts_used))` and
`horizon = min(max_possible, max(1, int(max_offsets)))`. -/
def horizonOf (invoices : List InvoiceAgg) (cfg : VariantCfg) : Nat :=
  let st := customerPeriodOf invoices cfg
  let keys := periodKeysOf st.customer_period
  let cohortsUsed := cohortsUsedOf keys st.customer_period
  let minC : ℤ := ((cohortsUsed.min?).getD 0 : ℕ)
  let max_possible : ℤ := max 0 ((keys.length : ℤ) - 1 - minC)
  (min max_possible (max 1 cfg.max_offsets)).toNat

/-- `build_variant` (lines 319–609).  The wall-clock `utcnow()` read of
line 592 is injected as the `now` argument, used only for the
`generated_at` field; `ValueError` raises become `Except.error`. -/
def build_variant (invoices : List InvoiceAgg) (raw : RawStats) (cfg : VariantCfg)
    (now : String) : Except String Variant :=
  if ¬(cfg.granularity = "month" ∨ cfg.granularity = "week") then
    .error "granularity must be month|week"
  else
    let st := customerPeriodOf invoices cfg
    let keys := periodKeysOf st.customer_period
    if keys.isEmpty then .error "Empty dataset after filters for variant"
    else
      let cohortsUsed := cohortsUsedOf keys st.customer_period
      if cohortsUsed.isEmpty then .error "No cohorts computed (unexpected)."
      else
        let horizon : Nat := horizonOf invoices cfg
        let offsets := List.range (horizon + 1)
        let acc := matAccOf keys horizon st.customer_period
        let max_date := (st.inv_max.orElse (fun _ => raw.max_date)).getD ⟨1970, 1, 1, 0, 0, 0⟩
        let metrics := st.customer_period.map (fun x =>
          let orders_total : ℚ := (x.2.map (fun e => ((truncQ e.2.orders : ℤ) : ℚ))).sum
          let revenue_total : ℚ := (x.2.map (fun e => e.2.revenue)).sum
          let last_date := ((alookup x.1 st.customer_last_date_pos).orElse
            (fun _ => alookup x.1 st.customer_last_date_any)).getD max_date
          (orders_total, revenue_total, ((dtSubDays max_date last_date : ℤ) : ℚ)))
        let r_edges := quintile_edges (metrics.map (fun m => m.2.2))
        let f_edges := quintile_edges (metrics.map (fun m => m.1))
        let segAcc := metrics.foldl (segAccStep r_edges f_edges) []
        let segments0 := segAcc.map (fun x =>
          let aov := if 0 < x.2.orders then x.2.revenue / x.2.orders else 0
          let repeat_rate :=
            if 0 < x.2.customers then (x.2.repeaters : ℚ) / (x.2.customers : ℚ) else 0
          (⟨x.1, x.2.customers, x.2.repeaters, round_half_even x.2.orders,
            py_round2 x.2.revenue, py_round2 aov, py_round1 (repeat_rate * 100)⟩ : SegRow))
        let segments := isort segLe segments0
        let top_countries := (isort (fun a b => decide (b.2 ≤ a.2)) st.country_revenue).take 5
        let p99 := percentile (isort (fun a b => a ≤ b) st.inv_values_pos) (99/100)
        let missing_ratio : ℚ :=
          if raw.total_rows = 0 then 0 else (raw.missing_customer_rows : ℚ) / (raw.total_rows : ℚ)
        let qty_ratio : ℚ :=
          if raw.total_rows = 0 then 0 else (raw.qty_le_0_rows : ℚ) / (raw.total_rows : ℚ)
        let unit_ratio : ℚ :=
          if raw.total_rows = 0 then 0 else (raw.unitprice_le_0_rows : ℚ) / (raw.total_rows : ℚ)
        let canc_ratio : ℚ :=
          if raw.total_rows = 0 then 0 else (raw.cancellations_rows : ℚ) / (raw.total_rows : ℚ)
        let dup_ratio : ℚ :=
          if raw.total_rows = 0 then 0 else (raw.duplicate_rows : ℚ) / (raw.total_rows : ℚ)
        .ok {
          dataset := "Online Retail II (UCI)",
          generated_at := now,
          granularity := cfg.granularity,
          include_returns := cfg.include_returns,
          include_anon := cfg.include_anon,
          raw_rows := raw.total_rows,
          rows_after_filters := st.rows_after_filters,
          date_min := raw.min_date.map (fun d => (d.year, d.month, d.day)),
          date_max := raw.max_date.map (fun d => (d.year, d.month, d.day)),
          max_offsets := cfg.max_offsets,
          sanity := {
            total_rows := raw.total_rows,
            rows_after_filters := st.rows_after_filters,
            missing_customer := (raw.missing_customer_rows, missing_ratio),
            qty_le_0 := (raw.qty_le_0_rows, qty_ratio),
            unitprice_le_0 := (raw.unitprice_le_0_rows, unit_ratio),
            cancellations := (raw.cancellations_rows, canc_ratio),
            duplicates := (raw.duplicate_rows, dup_ratio),
            date_range := (raw.min_date.map (fun d => (d.year, d.month, d.day)),
              raw.max_date.map (fun d => (d.year, d.month, d.day))),
            top_countries := top_countries.map (fun c => (c.1, py_round2 c.2)),
            p99 := p99,
            oks := [decide (0 < raw.total_rows),
              decide (st.rows_after_filters ≤ raw.total_rows), true, true, true, true, true,
              (match raw.min_date, raw.max_date with
                | some a, some b => !dtLt b a
                | _, _ => false), true, true] },
          cohorts := cohortsUsed.map (fun i => keys.getD i []),
          offsets := offsets,
          count_values := pct_counts cohortsUsed offsets acc,
          revenue_values := pct_revenue cohortsUsed offsets acc,
          segments := segments,
          segment_bars := (segments.take 10).map (fun r => (r.segment, max 0 r.revenue)) }

theorem build_variant_ok_fields (invoices : List InvoiceAgg) (raw : RawStats)
    (cfg : VariantCfg) (now : String) (v : Variant)
    (h : build_variant invoices raw cfg now = .ok v) :
    periodKeysOf (customerPeriodOf invoices cfg).customer_period ≠ [] ∧
    cohortsUsedOf (periodKeysOf (customerPeriodOf invoices cfg).customer_period)
      (customerPeriodOf invoices cfg).customer_period ≠ [] ∧
    v.offsets = List.range (horizonOf invoices cfg + 1) ∧
    v.count_values = pct_counts
      (cohortsUsedOf (periodKeysOf (customerPeriodOf invoices cfg).customer_period)
        (customerPeriodOf invoices cfg).customer_period)
      (List.range (horizonOf invoices cfg + 1))
      (matAccOf (periodKeysOf (customerPeriodOf invoices cfg).customer_period)
        (horizonOf invoices cfg) (customerPeriodOf invoices cfg).customer_period) ∧
    v.revenue_values = pct_revenue
      (cohortsUsedOf (periodKeysOf (customerPeriodOf invoices cfg).customer_period)
        (customerPeriodOf invoices cfg).customer_period)
      (List.range (horizonOf invoices cfg + 1))
      (matAccOf (periodKeysOf (customerPeriodOf invoices cfg).customer_period)
        (horizonOf invoices cfg) (customerPeriodOf invoices cfg).customer_period) := by
  unfold build_variant at h
  by_cases hg : ¬(cfg.granularity = "month" ∨ cfg.granularity = "week")
  · rw [if_pos hg] at h
    exact absurd h (by simp)
  · rw [if_neg hg] at h
    dsimp only at h
    by_cases hk : (periodKeysOf (customerPeriodOf invoices cfg).customer_period).isEmpty = true
    · rw [if_pos hk] at h
      exact absurd h (by simp)
    · rw [if_neg hk] at h
      by_cases hc : (cohortsUsedOf (periodKeysOf (customerPeriodOf invoices cfg).customer_period)
          (customerPeriodOf invoices cfg).customer_period).isEmpty = true
      · rw [if_pos hc] at h
        exact absurd h (by simp)
      · rw [if_neg hc] at h
        rw [Except.ok.injEq] at h
        subst h
        refine ⟨?_, ?_, rfl, rfl, rfl⟩
        · intro he
          exact hk (by simp [he])
        · intro he
          exact hc (by simp [he])

theorem mem_periodKeysOf (cp : List (String × List (List Char × CPEntry)))
    (c : String) (per : List (List Char × CPEntry)) (p : List Char) (e : CPEntry)
    (hc : (c, per) ∈ cp) (hp : (p, e) ∈ per) : p ∈ periodKeysOf cp := by
  unfold periodKeysOf
  have hmem : p ∈ (cp.flatMap (fun x => x.2.map Prod.fst)).dedup := by
    rw [List.mem_dedup, List.mem_flatMap]
    exact ⟨(c, per), hc, List.mem_map.mpr ⟨(p, e), hp, rfl⟩⟩
  exact ((isort_perm _ _).mem_iff).mpr hmem

theorem cohortIdxOf_lt (keys : List (List Char)) (per : List (List Char × CPEntry))
    (hne : keys ≠ []) (hmem : ∀ x ∈ per, x.1 ∈ keys) :
    cohortIdxOf keys per < keys.length := by
  have hlen : 0 < keys.length := List.length_pos.mpr hne
  have hMinOr : ∀ (a b : ℕ), a ⊓ b = a ∨ a ⊓ b = b := by intro a b; omega
  unfold cohortIdxOf
  cases hmin : (per.filterMap (fun x =>
      if 0 < x.2.orders ∧ 0 < x.2.revenue then some (pindexOf x.1 keys) else none)).min? with
  | some m =>
    simp only [hmin, Option.getD_some]
    have hm := List.min?_mem hMinOr hmin
    rw [List.mem_filterMap] at hm
    obtain ⟨x, hx, hxe⟩ := hm
    by_cases hcond : 0 < x.2.orders ∧ 0 < x.2.revenue
    · rw [if_pos hcond, Option.some_inj] at hxe
      subst hxe
      exact pindexOf_lt_length _ _ (hmem x hx)
    · rw [if_neg hcond] at hxe
      cases hxe
  | none =>
    simp only [hmin, Option.getD_none]
    cases hmin2 : (per.filterMap (fun x =>
        if 0 < x.2.orders then some (pindexOf x.1 keys) else none)).min? with
    | some m =>
      simp only [hmin2, Option.getD_some]
      have hm := List.min?_mem hMinOr hmin2
      rw [List.mem_filterMap] at hm
      obtain ⟨x, hx, hxe⟩ := hm
      by_cases hcond : 0 < x.2.orders
      · rw [if_pos hcond, Option.some_inj] at hxe
        subst hxe
        exact pindexOf_lt_length _ _ (hmem x hx)
      · rw [if_neg hcond] at hxe
        cases hxe
    | none =>
      simp only [hmin2, Option.getD_none]
      exact hlen

theorem cohortsUsedOf_lt (cp : List (String × List (List Char × CPEntry)))
    (hne : periodKeysOf cp ≠ []) :
    ∀ c ∈ cohortsUsedOf (periodKeysOf cp) cp, c < (periodKeysOf cp).length := by
  intro c hc
  unfold cohortsUsedOf at hc
  have hc2 : c ∈ (cp.map (fun x => cohortIdxOf (periodKeysOf cp) x.2)).dedup :=
    ((isort_perm _ _).mem_iff).mp hc
  rw [List.mem_dedup, List.mem_map] at hc2
  obtain ⟨x, hx, hxe⟩ := hc2
  subst hxe
  apply cohortIdxOf_lt _ _ hne
  intro y hy
  exact mem_periodKeysOf cp x.1 x.2 y.1 y.2 hx (by simpa using hy)

/-- C2 (amended): when `build_variant` emits an artifact its horizon (the
largest matrix offset) equals
`min((number of periods − 1) − earliest used cohort index, max(1, maxOffsets))`:
the configured cap enters clamped below by 1, not raw.  The
`(periods − 1) − earliest` term is never negative, because every used cohort
index is the index of a period (so no negative-horizon abort exists or is
needed); and a variant with no periods after filtering makes the builder
raise instead of emitting an artifact. -/
theorem C2_horizon_formula :
    (∀ (invoices : List InvoiceAgg) (raw : RawStats) (cfg : VariantCfg) (now : String)
        (v : Variant), build_variant invoices raw cfg now = .ok v →
      (v.offsets.length : ℤ) - 1 =
        min (((periodKeysOf (customerPeriodOf invoices cfg).customer_period).length : ℤ) - 1 -
            (((cohortsUsedOf (periodKeysOf (customerPeriodOf invoices cfg).customer_period)
              (customerPeriodOf invoices cfg).customer_period).min?).getD 0 : ℕ))
          (max 1 cfg.max_offsets) ∧
      ((((cohortsUsedOf (periodKeysOf (customerPeriodOf invoices cfg).customer_period)
          (customerPeriodOf invoices cfg).customer_period).min?).getD 0 : ℕ) : ℤ) ≤
        ((periodKeysOf (customerPeriodOf invoices cfg).customer_period).length : ℤ) - 1) ∧
    (∀ (invoices : List InvoiceAgg) (raw : RawStats) (cfg : VariantCfg) (now : String),
      periodKeysOf (customerPeriodOf invoices cfg).customer_period = [] →
      ∃ msg, build_variant invoices raw cfg now = .error msg) := by
  constructor
  · intro invoices raw cfg now v h
    obtain ⟨hkeys, hcoh, hoffs, _, _⟩ := build_variant_ok_fields invoices raw cfg now v h
    have hminlt : ((((cohortsUsedOf (periodKeysOf (customerPeriodOf invoices cfg).customer_period)
        (customerPeriodOf invoices cfg).customer_period).min?).getD 0 : ℕ) : ℤ) ≤
        ((periodKeysOf (customerPeriodOf invoices cfg).customer_period).length : ℤ) - 1 := by
      cases hm : (cohortsUsedOf (periodKeysOf (customerPeriodOf invoices cfg).customer_period)
          (customerPeriodOf invoices cfg).customer_period).min? with
      | none =>
        exact absurd (List.min?_eq_none_iff.mp hm) hcoh
      | some m =>
        have hmem := List.min?_mem (by intro a b; omega) hm
        have hlt := cohortsUsedOf_lt (customerPeriodOf invoices cfg).customer_period hkeys m hmem
        simp only [hm, Option.getD_some]
        omega
    refine ⟨?_, hminlt⟩
    rw [hoffs]
    unfold horizonOf
    have h1 : (0 : ℤ) ≤ min (max 0
        (((periodKeysOf (customerPeriodOf invoices cfg).customer_period).length : ℤ) - 1 -
          (((cohortsUsedOf (periodKeysOf (customerPeriodOf invoices cfg).customer_period)
            (customerPeriodOf invoices cfg).customer_period).min?).getD 0 : ℕ)))
        (max 1 cfg.max_offsets) := by
      omega
    simp only [List.length_range]
    push_cast [Int.toNat_of_nonneg h1]
    omega
  · intro invoices raw cfg now hkeys
    by_cases hg : ¬(cfg.granularity = "month" ∨ cfg.granularity = "week")
    · exact ⟨"granularity must be month|week", by unfold build_variant; rw [if_pos hg]⟩
    · refine ⟨"Empty dataset after filters for variant", ?_⟩
      unfold build_variant
      rw [if_neg hg]
      dsimp only
      rw [if_pos (by simp [hkeys])]

/-- C2 counterexample: with two periods, earliest cohort 0 and
`maxOffsets = -1`, the claim value `min(maxOffsets, (K−1) − earliest)` is
negative, so the claim demands a fatal abort; the code instead emits an
artifact whose horizon is 1 (offsets [0, 1]), because it caps with
`max(1, maxOffsets)` and clamps `max_possible` at 0. -/
theorem C2_counterexample :
    (build_variant
        [⟨"I1", some "A", "UK", ⟨2023, 1, 5, 10, 0, 0⟩, 50, false, 1⟩,
         ⟨"I2", some "A", "UK", ⟨2023, 3, 7, 10, 0, 0⟩, 30, false, 1⟩]
        ⟨2, 0, 0, 0, 0, 0, none, none⟩ ⟨"month", false, false, -1⟩ "t").map Variant.offsets
      = .ok [0, 1] ∧
    (periodKeysOf (customerPeriodOf
        [⟨"I1", some "A", "UK", ⟨2023, 1, 5, 10, 0, 0⟩, 50, false, 1⟩,
         ⟨"I2", some "A", "UK", ⟨2023, 3, 7, 10, 0, 0⟩, 30, false, 1⟩]
        ⟨"month", false, false, -1⟩).customer_period).length = 2 ∧
    (cohortsUsedOf (periodKeysOf (customerPeriodOf
        [⟨"I1", some "A", "UK", ⟨2023, 1, 5, 10, 0, 0⟩, 50, false, 1⟩,
         ⟨"I2", some "A", "UK", ⟨2023, 3, 7, 10, 0, 0⟩, 30, false, 1⟩]
        ⟨"month", false, false, -1⟩).customer_period)
      (customerPeriodOf
        [⟨"I1", some "A", "UK", ⟨2023, 1, 5, 10, 0, 0⟩, 50, false, 1⟩,
         ⟨"I2", some "A", "UK", ⟨2023, 3, 7, 10, 0, 0⟩, 30, false, 1⟩]
        ⟨"month", false, false, -1⟩).customer_period) = [0] ∧
    min (-1 : ℤ) (((2 : ℤ) - 1) - 0) < 0 := by
  refine ⟨?_, ?_, ?_, by decide⟩
  · rfl
  · decide
  · decide

/-- Witness for C2: the concrete two-period run with `maxOffsets = -1`
satisfies the amended horizon formula, and the empty invoice list (no
periods after filtering) makes the builder raise. -/
theorem C2_horizon_formula_witness :
    (∃ v, build_variant
        [⟨"I1", some "A", "UK", ⟨2023, 1, 5, 10, 0, 0⟩, 50, false, 1⟩,
         ⟨"I2", some "A", "UK", ⟨2023, 3, 7, 10, 0, 0⟩, 30, false, 1⟩]
        ⟨2, 0, 0, 0, 0, 0, none, none⟩ ⟨"month", false, false, -1⟩ "t" = .ok v ∧
      (v.offsets.length : ℤ) - 1 =
        min (((periodKeysOf (customerPeriodOf
            [⟨"I1", some "A", "UK", ⟨2023, 1, 5, 10, 0, 0⟩, 50, false, 1⟩,
             ⟨"I2", some "A", "UK", ⟨2023, 3, 7, 10, 0, 0⟩, 30, false, 1⟩]
            ⟨"month", false, false, -1⟩).customer_period).length : ℤ) - 1 -
          (((cohortsUsedOf (periodKeysOf (customerPeriodOf
              [⟨"I1", some "A", "UK", ⟨2023, 1, 5, 10, 0, 0⟩, 50, false, 1⟩,
               ⟨"I2", some "A", "UK", ⟨2023, 3, 7, 10, 0, 0⟩, 30, false, 1⟩]
              ⟨"month", false, false, -1⟩).customer_period)
            (customerPeriodOf
              [⟨"I1", some "A", "UK", ⟨2023, 1, 5, 10, 0, 0⟩, 50, false, 1⟩,
               ⟨"I2", some "A", "UK", ⟨2023, 3, 7, 10, 0, 0⟩, 30, false, 1⟩]
              ⟨"month", false, false, -1⟩).customer_period).min?).getD 0 : ℕ))
          (max 1 (-1 : ℤ))) ∧
    (∃ msg, build_variant [] ⟨0, 0, 0, 0, 0, 0, none, none⟩
      ⟨"month", false, false, 12⟩ "t" = .error msg) := by
  constructor
  · match hb : build_variant
        [⟨"I1", some "A", "UK", ⟨2023, 1, 5, 10, 0, 0⟩, 50, false, 1⟩,
         ⟨"I2", some "A", "UK", ⟨2023, 3, 7, 10, 0, 0⟩, 30, false, 1⟩]
        ⟨2, 0, 0, 0, 0, 0, none, none⟩ ⟨"month", false, false, -1⟩ "t" with
    | .error e =>
      have : (build_variant
          [⟨"I1", some "A", "UK", ⟨2023, 1, 5, 10, 0, 0⟩, 50, false, 1⟩,
           ⟨"I2", some "A", "UK", ⟨2023, 3, 7, 10, 0, 0⟩, 30, false, 1⟩]
          ⟨2, 0, 0, 0, 0, 0, none, none⟩ ⟨"month", false, false, -1⟩ "t").map Variant.offsets
          = .ok [0, 1] := rfl
      rw [hb] at this
      exact absurd this (by simp [Except.map])
    | .ok v =>
      exact ⟨v, rfl, (C2_horizon_formula.1 _ _ _ _ v hb).1⟩
  · exact C2_horizon_formula.2 [] ⟨0, 0, 0, 0, 0, 0, none, none⟩
      ⟨"month", false, false, 12⟩ "t" (by decide)

/-- C8: two runs of the variant builder on the same invoices, statistics and
configuration produce identical artifacts except for the generated-at
timestamp — the only wall-clock-dependent value; the computation has no
other time dependence and no randomness.  Overwriting `generated_at` with a
fixed string makes the two results equal. -/
theorem C8_deterministic_artifacts (invoices : List InvoiceAgg) (raw : RawStats)
    (cfg : VariantCfg) (t1 t2 : String) :
    (build_variant invoices raw cfg t1).map (fun v => { v with generated_at := "" }) =
      (build_variant invoices raw cfg t2).map (fun v => { v with generated_at := "" }) := by
  unfold build_variant
  by_cases hg : ¬(cfg.granularity = "month" ∨ cfg.granularity = "week")
  · rw [if_pos hg, if_pos hg]
  · rw [if_neg hg, if_neg hg]
    dsimp only
    by_cases hk : (periodKeysOf (customerPeriodOf invoices cfg).customer_period).isEmpty = true
    · rw [if_pos hk, if_pos hk]
    · rw [if_neg hk, if_neg hk]
      by_cases hc : (cohortsUsedOf (periodKeysOf (customerPeriodOf invoices cfg).customer_period)
          (customerPeriodOf invoices cfg).customer_period).isEmpty = true
      · rw [if_pos hc, if_pos hc]
      · rw [if_neg hc, if_neg hc]
        rfl

theorem insertLe_sorted_le (a : ℚ) (l : List ℚ) (h : List.Sorted (· ≤ ·) l) :
    List.Sorted (· ≤ ·) (insertLe (fun x y => decide (x ≤ y)) a l) := by
  induction l with
  | nil => simp [insertLe]
  | cons b bs ih =>
    rw [List.sorted_cons] at h
    obtain ⟨hb, hbs⟩ := h
    by_cases hab : a ≤ b
    · have : insertLe (fun x y => decide (x ≤ y)) a (b :: bs) = a :: b :: bs := by
        simp [insertLe, hab]
      rw [this, List.sorted_cons]
      refine ⟨?_, List.sorted_cons.mpr ⟨hb, hbs⟩⟩
      intro x hx
      rcases List.mem_cons.mp hx with he | hm
      · exact he ▸ hab
      · exact le_trans hab (hb x hm)
    · have : insertLe (fun x y => decide (x ≤ y)) a (b :: bs) =
          b :: insertLe (fun x y => decide (x ≤ y)) a bs := by
        simp [insertLe, hab]
      rw [this, List.sorted_cons]
      refine ⟨?_, ih hbs⟩
      intro x hx
      have hx2 : x ∈ a :: bs := ((insertLe_perm _ a bs).mem_iff).mp hx
      rcases List.mem_cons.mp hx2 with he | hm
      · subst he
        linarith [not_le.mp hab]
      · exact hb x hm

theorem isort_sorted_le (l : List ℚ) :
    List.Sorted (· ≤ ·) (isort (fun x y => decide (x ≤ y)) l) := by
  induction l with
  | nil => simp [isort]
  | cons a as ih => exact insertLe_sorted_le a _ ih

theorem score_quintile_foldl (v : ℚ) (edges : List ℚ) : ∀ s : Nat,
    edges.foldl (fun s e => if e < v then s + 1 else s) s =
      s + edges.countP (fun e => decide (e < v)) := by
  induction edges with
  | nil => intro s; simp
  | cons e es ih =>
    intro s
    rw [List.foldl_cons, List.countP_cons]
    by_cases he : e < v
    · rw [if_pos he, ih (s + 1)]
      simp [he]
      try omega
    · rw [if_neg he, ih s]
      simp [he]

/-- C6: a per-metric quintile score is 1 plus the number of the four cut
points the value strictly exceeds, clamped to [1, 5]; the cut points sit at
the 20/40/60/80th order-statistic positions of the metric's sorted
population; and the recency score used for segmentation is the inversion
`6 − raw score`, so more recent customers score higher. -/
theorem C6_quintile_scoring :
    (∀ (v : ℚ) (edges : List ℚ),
      score_quintile v edges =
        max 1 (min 5 (1 + edges.countP (fun e => decide (e < v))))) ∧
    (∀ values : List ℚ, values ≠ [] →
      ∃ s : List ℚ, List.Perm s values ∧ List.Sorted (· ≤ ·) s ∧
        quintile_edges values =
          [s.getD ((s.length - 1) * 1 / 5) 0, s.getD ((s.length - 1) * 2 / 5) 0,
           s.getD ((s.length - 1) * 3 / 5) 0, s.getD ((s.length - 1) * 4 / 5) 0]) ∧
    (∀ (re fe : List ℚ) (rec ord : ℚ),
      segScores re fe rec ord = (6 - score_quintile rec re, score_quintile ord fe)) := by
  refine ⟨?_, ?_, ?_⟩
  · intro v edges
    unfold score_quintile
    rw [score_quintile_foldl v edges 1]
  · intro values hne
    refine ⟨isort (fun x y => decide (x ≤ y)) values, isort_perm _ values,
      isort_sorted_le values, ?_⟩
    unfold quintile_edges
    have hlen : (isort (fun x y => decide (x ≤ y)) values).length = values.length :=
      (isort_perm _ values).length_eq
    have hne2 : (isort (fun x y => decide (x ≤ y)) values).isEmpty = false := by
      rw [List.isEmpty_eq_false]
      intro he
      apply hne
      have := (isort_perm (fun x y : ℚ => decide (x ≤ y)) values).length_eq
      rw [he] at this
      exact List.length_eq_zero.mp this.symm
    simp only [hne2, Bool.false_eq_true, if_false]
  · intro re fe rec ord
    rfl

/-- Witness for C6 at a value of 3 against cut points [1, 2, 4, 5] (score
3 = 1 + 2 exceeded), a three-element population, and one scoring pair. -/
theorem C6_quintile_scoring_witness :
    (score_quintile 3 [1, 2, 4, 5] =
      max 1 (min 5 (1 + List.countP (fun e => decide (e < (3 : ℚ))) [1, 2, 4, 5]))) ∧
    (∃ s : List ℚ, List.Perm s [(5 : ℚ), 1, 3] ∧ List.Sorted (· ≤ ·) s ∧
      quintile_edges [(5 : ℚ), 1, 3] =
        [s.getD ((s.length - 1) * 1 / 5) 0, s.getD ((s.length - 1) * 2 / 5) 0,
         s.getD ((s.length - 1) * 3 / 5) 0, s.getD ((s.length - 1) * 4 / 5) 0]) ∧
    segScores [1] [2] 0 7 = (6 - score_quintile 0 [1], score_quintile 7 [2]) :=
  ⟨C6_quintile_scoring.1 3 [1, 2, 4, 5],
    C6_quintile_scoring.2.1 [(5 : ℚ), 1, 3] (by decide),
    C6_quintile_scoring.2.2 [1] [2] 0 7⟩

instance : Inhabited CPEntry := ⟨⟨0, 0⟩⟩

instance : Nonempty (List Char × CPEntry) := ⟨([], ⟨0, 0⟩)⟩

theorem updPeriod_keys (p : List Char) (r : ℚ) : ∀ per : List (List Char × CPEntry),
    (updPeriod p r per).map Prod.fst =
      (if p ∈ per.map Prod.fst then per.map Prod.fst else per.map Prod.fst ++ [p]) := by
  intro per
  induction per with
  | nil => simp [updPeriod]
  | cons x rest ih =>
    by_cases hx : x.1 == p
    · have hx2 : x.1 = p := by simpa using hx
      unfold updPeriod
      rw [if_pos hx]
      simp [hx2]
  -- hmm handled below
    · have hx2 : x.1 ≠ p := by simpa using hx
      unfold updPeriod
      rw [if_neg hx]
      by_cases hmem : p ∈ rest.map Prod.fst
      · simp only [List.map_cons, ih, if_pos hmem]
        rw [if_pos (by simp [hmem])]
      · simp only [List.map_cons, ih, if_neg hmem]
        rw [if_neg (by simp [hmem, Ne.symm hx2 ] )]
        simp

theorem updPeriod_keys_nodup (p : List Char) (r : ℚ) (per : List (List Char × CPEntry))
    (h : (per.map Prod.fst).Nodup) : ((updPeriod p r per).map Prod.fst).Nodup := by
  rw [updPeriod_keys]
  by_cases hmem : p ∈ per.map Prod.fst
  · rw [if_pos hmem]; exact h
  · rw [if_neg hmem]
    rw [List.nodup_append]
    refine ⟨h, List.nodup_singleton p, ?_⟩
    simp only [List.disjoint_singleton]
    exact hmem

/-- Per-customer invariant of the customer-period table: every customer's
period dict has duplicate-free keys. -/
def cpKeysNodup (cp : List (String × List (List Char × CPEntry))) : Prop :=
  ∀ x ∈ cp, (x.2.map Prod.fst).Nodup

theorem updCustomerPeriod_nodup (cust : String) (p : List Char) (r : ℚ) :
    ∀ cp, cpKeysNodup cp → cpKeysNodup (updCustomerPeriod cust p r cp) := by
  intro cp
  induction cp with
  | nil =>
    intro _ x hx
    unfold updCustomerPeriod at hx
    rcases List.mem_singleton.mp hx with he
    subst he
    exact updPeriod_keys_nodup p r [] (by simp)
  | cons y rest ih =>
    intro h x hx
    unfold updCustomerPeriod at hx
    by_cases hy : y.1 == cust
    · rw [if_pos hy] at hx
      rcases List.mem_cons.mp hx with he | hm
      · subst he
        exact updPeriod_keys_nodup p r y.2 (h y (List.mem_cons_self _ _))
      · exact h x (List.mem_cons_of_mem _ hm)
    · rw [if_neg hy] at hx
      rcases List.mem_cons.mp hx with he | hm
      · subst he
        exact h y (List.mem_cons_self _ _)
      · exact ih (fun z hz => h z (List.mem_cons_of_mem _ hz)) x hm

theorem customerPeriodOf_keys_nodup (invoices : List InvoiceAgg) (cfg : VariantCfg) :
    cpKeysNodup (customerPeriodOf invoices cfg).customer_period := by
  unfold customerPeriodOf
  suffices h : ∀ st : CPState, cpKeysNodup st.customer_period →
      cpKeysNodup (invoices.foldl (cpStep cfg) st).customer_period by
    exact h ⟨[], [], [], [], 0, [], none, none⟩ (by intro x hx; cases hx)
  induction invoices with
  | nil => intro st h; exact h
  | cons inv rest ih =>
    intro st h
    rw [List.foldl_cons]
    apply ih
    unfold cpStep
    by_cases h1 : (!cfg.include_returns && inv.is_return) = true
    · rw [if_pos h1]; exact h
    · rw [if_neg h1]
      cases hm : (match inv.customer_id with
        | none => if cfg.include_anon then some ("anon:" ++ inv.invoice) else none
        | some c => some c) with
      | none => exact h
      | some cust =>
        dsimp only
        exact updCustomerPeriod_nodup cust _ inv.revenue _ h

theorem periodKeysOf_nodup (cp : List (String × List (List Char × CPEntry))) :
    (periodKeysOf cp).Nodup := by
  unfold periodKeysOf
  exact ((isort_perm _ _).nodup_iff).mpr (List.nodup_dedup _)

/-- Revenue a customer's period cells attribute to period index `j`. -/
def entryRevSum (keys : List (List Char)) (j : Nat) (per : List (List Char × CPEntry)) : ℚ :=
  ((per.filter (fun x => pindexOf x.1 keys = j)).map (fun x => x.2.revenue)).sum

/-- Number of a customer's period cells at index `j` with positive
(truncated) orders and positive revenue. -/
def entryPosCount (keys : List (List Char)) (j : Nat) (per : List (List Char × CPEntry)) : Nat :=
  per.countP (fun x =>
    decide (pindexOf x.1 keys = j ∧ 0 < truncQ x.2.orders ∧ 0 < x.2.revenue))

theorem entryRevSum_cons (keys : List (List Char)) (j : Nat) (x : List Char × CPEntry)
    (per : List (List Char × CPEntry)) :
    entryRevSum keys j (x :: per) =
      (if pindexOf x.1 keys = j then x.2.revenue else 0) + entryRevSum keys j per := by
  unfold entryRevSum
  rw [List.filter_cons]
  by_cases h : pindexOf x.1 keys = j
  · simp [h]
  · simp [h]

theorem entryPosCount_cons (keys : List (List Char)) (j : Nat) (x : List Char × CPEntry)
    (per : List (List Char × CPEntry)) :
    entryPosCount keys j (x :: per) =
      (if pindexOf x.1 keys = j ∧ 0 < truncQ x.2.orders ∧ 0 < x.2.revenue then 1 else 0) +
        entryPosCount keys j per := by
  unfold entryPosCount
  rw [List.countP_cons]
  by_cases h : pindexOf x.1 keys = j ∧ 0 < truncQ x.2.orders ∧ 0 < x.2.revenue
  · simp [h]
    omega
  · simp [h]

theorem matEntryStep_rev_sums (keys : List (List Char)) (horizon cidx : Nat) (acc : MatAcc)
    (x : List Char × CPEntry) (c off : Nat) (hoff : off ≤ horizon) :
    (matEntryStep keys horizon cidx acc x).rev_sums c off =
      acc.rev_sums c off +
        (if cidx = c ∧ pindexOf x.1 keys = c + off then x.2.revenue else 0) := by
  unfold matEntryStep
  dsimp only
  by_cases hm : cidx = c ∧ pindexOf x.1 keys = c + off
  · obtain ⟨h1, hp⟩ := hm
    subst h1
    have hskip2 : ¬((pindexOf x.1 keys : ℤ) - (cidx : ℤ) < 0 ∨
        (horizon : ℤ) < (pindexOf x.1 keys : ℤ) - (cidx : ℤ)) := by
      rw [hp]; push_cast; omega
    rw [if_neg hskip2]
    have hoffN : (((pindexOf x.1 keys : ℤ)) - (cidx : ℤ)).toNat = off := by
      rw [hp]; push_cast; omega
    rw [if_pos (⟨rfl, hp⟩ : cidx = cidx ∧ pindexOf x.1 keys = cidx + off)]
    by_cases hpos : 0 < truncQ x.2.orders ∧ 0 < x.2.revenue
    · rw [if_pos hpos]
      dsimp only [upd2]
      rw [hoffN]
      rw [if_pos (⟨rfl, rfl⟩ : cidx = cidx ∧ off = off)]
    · rw [if_neg hpos]
      dsimp only [upd2]
      rw [hoffN]
      rw [if_pos (⟨rfl, rfl⟩ : cidx = cidx ∧ off = off)]
  · rw [if_neg hm, add_zero]
    by_cases hskip : ((pindexOf x.1 keys : ℤ) - (cidx : ℤ) < 0 ∨
        (horizon : ℤ) < (pindexOf x.1 keys : ℤ) - (cidx : ℤ))
    · rw [if_pos hskip]
    · rw [if_neg hskip]
      push_neg at hskip
      have hne : ¬(c = cidx ∧ off = (((pindexOf x.1 keys : ℤ)) - (cidx : ℤ)).toNat) := by
        rintro ⟨h1, h2⟩
        subst h1
        exact hm ⟨rfl, by omega⟩
      by_cases hpos : 0 < truncQ x.2.orders ∧ 0 < x.2.revenue
      · rw [if_pos hpos]
        dsimp only [upd2]
        rw [if_neg hne]
      · rw [if_neg hpos]
        dsimp only [upd2]
        rw [if_neg hne]

theorem matEntryStep_ret_counts (keys : List (List Char)) (horizon cidx : Nat) (acc : MatAcc)
    (x : List Char × CPEntry) (c off : Nat) (hoff : off ≤ horizon) :
    (matEntryStep keys horizon cidx acc x).ret_counts c off =
      acc.ret_counts c off +
        (if cidx = c ∧ pindexOf x.1 keys = c + off ∧ 0 < truncQ x.2.orders ∧ 0 < x.2.revenue
          then 1 else 0) := by
  unfold matEntryStep
  dsimp only
  by_cases hm : cidx = c ∧ pindexOf x.1 keys = c + off
  · obtain ⟨h1, hp⟩ := hm
    subst h1
    have hskip2 : ¬((pindexOf x.1 keys : ℤ) - (cidx : ℤ) < 0 ∨
        (horizon : ℤ) < (pindexOf x.1 keys : ℤ) - (cidx : ℤ)) := by
      rw [hp]; push_cast; omega
    rw [if_neg hskip2]
    have hoffN : (((pindexOf x.1 keys : ℤ)) - (cidx : ℤ)).toNat = off := by
      rw [hp]; push_cast; omega
    by_cases hpos : 0 < truncQ x.2.orders ∧ 0 < x.2.revenue
    · rw [if_pos (⟨rfl, hp, hpos⟩ : cidx = cidx ∧ pindexOf x.1 keys = cidx + off ∧
        0 < truncQ x.2.orders ∧ 0 < x.2.revenue)]
      rw [if_pos hpos]
      dsimp only [upd2]
      rw [hoffN]
      rw [if_pos (⟨rfl, rfl⟩ : cidx = cidx ∧ off = off)]
    · rw [if_neg (fun hq => hpos hq.2.2 : ¬(cidx = cidx ∧ pindexOf x.1 keys = cidx + off ∧
        0 < truncQ x.2.orders ∧ 0 < x.2.revenue)), add_zero]
      rw [if_neg hpos]
  · have hne2 : ¬(cidx = c ∧ pindexOf x.1 keys = c + off ∧
        0 < truncQ x.2.orders ∧ 0 < x.2.revenue) := by
      rintro ⟨h1, h2, _⟩
      exact hm ⟨h1, h2⟩
    rw [if_neg hne2, add_zero]
    by_cases hskip : ((pindexOf x.1 keys : ℤ) - (cidx : ℤ) < 0 ∨
        (horizon : ℤ) < (pindexOf x.1 keys : ℤ) - (cidx : ℤ))
    · rw [if_pos hskip]
    · rw [if_neg hskip]
      push_neg at hskip
      have hne : ¬(c = cidx ∧ off = (((pindexOf x.1 keys : ℤ)) - (cidx : ℤ)).toNat) := by
        rintro ⟨h1, h2⟩
        subst h1
        exact hm ⟨rfl, by omega⟩
      by_cases hpos : 0 < truncQ x.2.orders ∧ 0 < x.2.revenue
      · rw [if_pos hpos]
        dsimp only [upd2]
        rw [if_neg hne]
      · rw [if_neg hpos]

theorem matEntryStep_cohort_size (keys : List (List Char)) (horizon cidx : Nat) (acc : MatAcc)
    (x : List Char × CPEntry) :
    (matEntryStep keys horizon cidx acc x).cohort_size = acc.cohort_size := by
  unfold matEntryStep
  dsimp only
  split
  · rfl
  · split <;> rfl

theorem matEntryStep_rev_base (keys : List (List Char)) (horizon cidx : Nat) (acc : MatAcc)
    (x : List Char × CPEntry) :
    (matEntryStep keys horizon cidx acc x).rev_base = acc.rev_base := by
  unfold matEntryStep
  dsimp only
  split
  · rfl
  · split <;> rfl

theorem matEntry_foldl_rev_sums (keys : List (List Char)) (horizon cidx c off : Nat)
    (hoff : off ≤ horizon) : ∀ (per : List (List Char × CPEntry)) (acc : MatAcc),
    (per.foldl (matEntryStep keys horizon cidx) acc).rev_sums c off =
      acc.rev_sums c off + (if cidx = c then entryRevSum keys (c + off) per else 0) := by
  intro per
  induction per with
  | nil =>
    intro acc
    simp [entryRevSum]
  | cons x rest ih =>
    intro acc
    rw [List.foldl_cons, ih, matEntryStep_rev_sums keys horizon cidx acc x c off hoff]
    by_cases hc : cidx = c
    · subst hc
      rw [entryRevSum_cons]
      simp only [eq_self_iff_true, true_and, if_true]
      ring
    · have hne : ¬(cidx = c ∧ pindexOf x.1 keys = c + off) := fun hq => hc hq.1
      rw [if_neg hne, if_neg hc, if_neg hc]
      ring

theorem matEntry_foldl_ret_counts (keys : List (List Char)) (horizon cidx c off : Nat)
    (hoff : off ≤ horizon) : ∀ (per : List (List Char × CPEntry)) (acc : MatAcc),
    (per.foldl (matEntryStep keys horizon cidx) acc).ret_counts c off =
      acc.ret_counts c off + (if cidx = c then entryPosCount keys (c + off) per else 0) := by
  intro per
  induction per with
  | nil =>
    intro acc
    simp [entryPosCount]
  | cons x rest ih =>
    intro acc
    rw [List.foldl_cons, ih, matEntryStep_ret_counts keys horizon cidx acc x c off hoff]
    by_cases hc : cidx = c
    · subst hc
      rw [entryPosCount_cons]
      simp only [eq_self_iff_true, true_and, if_true]
      omega
    · have hne : ¬(cidx = c ∧ pindexOf x.1 keys = c + off ∧
          0 < truncQ x.2.orders ∧ 0 < x.2.revenue) := fun hq => hc hq.1
      rw [if_neg hne, if_neg hc, if_neg hc]

theorem matEntry_foldl_cohort_size (keys : List (List Char)) (horizon cidx : Nat) :
    ∀ (per : List (List Char × CPEntry)) (acc : MatAcc),
    (per.foldl (matEntryStep keys horizon cidx) acc).cohort_size = acc.cohort_size := by
  intro per
  induction per with
  | nil => intro acc; rfl
  | cons x rest ih =>
    intro acc
    rw [List.foldl_cons, ih, matEntryStep_cohort_size]

theorem matEntry_foldl_rev_base (keys : List (List Char)) (horizon cidx : Nat) :
    ∀ (per : List (List Char × CPEntry)) (acc : MatAcc),
    (per.foldl (matEntryStep keys horizon cidx) acc).rev_base = acc.rev_base := by
  intro per
  induction per with
  | nil => intro acc; rfl
  | cons x rest ih =>
    intro acc
    rw [List.foldl_cons, ih, matEntryStep_rev_base]

/-- Offset-0 revenue-base contribution of one customer (lines 415–419):
the revenue of their cell at the cohort period key, when present and
positive. -/
def baseContrib (keys : List (List Char)) (c : Nat) (per : List (List Char × CPEntry)) : ℚ :=
  match keys.get? c with
  | none => 0
  | some ck =>
    match lookupPer ck per with
    | none => 0
    | some e => if 0 < e.revenue then e.revenue else 0

theorem matCustStep_rev_sums (keys : List (List Char)) (horizon : Nat) (acc : MatAcc)
    (x : String × List (List Char × CPEntry)) (c off : Nat) (hoff : off ≤ horizon) :
    (matCustStep keys horizon acc x).rev_sums c off =
      acc.rev_sums c off +
        (if cohortIdxOf keys x.2 = c then entryRevSum keys (c + off) x.2 else 0) := by
  unfold matCustStep
  dsimp only
  split
  · exact matEntry_foldl_rev_sums keys horizon _ c off hoff x.2 _
  · split
    · exact matEntry_foldl_rev_sums keys horizon _ c off hoff x.2 _
    · split
      · exact matEntry_foldl_rev_sums keys horizon _ c off hoff x.2 _
      · exact matEntry_foldl_rev_sums keys horizon _ c off hoff x.2 _

theorem matCustStep_ret_counts (keys : List (List Char)) (horizon : Nat) (acc : MatAcc)
    (x : String × List (List Char × CPEntry)) (c off : Nat) (hoff : off ≤ horizon) :
    (matCustStep keys horizon acc x).ret_counts c off =
      acc.ret_counts c off +
        (if cohortIdxOf keys x.2 = c then entryPosCount keys (c + off) x.2 else 0) := by
  unfold matCustStep
  dsimp only
  split
  · exact matEntry_foldl_ret_counts keys horizon _ c off hoff x.2 _
  · split
    · exact matEntry_foldl_ret_counts keys horizon _ c off hoff x.2 _
    · split
      · exact matEntry_foldl_ret_counts keys horizon _ c off hoff x.2 _
      · exact matEntry_foldl_ret_counts keys horizon _ c off hoff x.2 _

theorem matCustStep_cohort_size (keys : List (List Char)) (horizon : Nat) (acc : MatAcc)
    (x : String × List (List Char × CPEntry)) (c : Nat) :
    (matCustStep keys horizon acc x).cohort_size c =
      acc.cohort_size c + (if cohortIdxOf keys x.2 = c then 1 else 0) := by
  unfold matCustStep
  dsimp only
  have hcore : (x.2.foldl (matEntryStep keys horizon (cohortIdxOf keys x.2))
      { acc with cohort_size := (upd1 acc.cohort_size (cohortIdxOf keys x.2) (acc.cohort_size (cohortIdxOf keys x.2) + 1)) }).cohort_size c =
      acc.cohort_size c + (if cohortIdxOf keys x.2 = c then 1 else 0) := by
    rw [matEntry_foldl_cohort_size]
    dsimp only [upd1]
    by_cases hc : c = cohortIdxOf keys x.2
    · subst hc
      rw [if_pos rfl, if_pos rfl]
    · rw [if_neg hc, if_neg (fun he => hc he.symm), add_zero]
  split
  · exact hcore
  · split
    · exact hcore
    · split
      · exact hcore
      · exact hcore

theorem matCustStep_rev_base (keys : List (List Char)) (horizon : Nat) (acc : MatAcc)
    (x : String × List (List Char × CPEntry)) (c : Nat) :
    (matCustStep keys horizon acc x).rev_base c =
      acc.rev_base c + (if cohortIdxOf keys x.2 = c then baseContrib keys c x.2 else 0) := by
  unfold matCustStep
  dsimp only
  have hfold : ∀ (ci : Nat) (v : Nat → Nat),
      (x.2.foldl (matEntryStep keys horizon ci) { acc with cohort_size := v }).rev_base =
        acc.rev_base := by
    intro ci v
    rw [matEntry_foldl_rev_base]
  by_cases hc : cohortIdxOf keys x.2 = c
  · rw [hc, if_pos rfl]
    unfold baseContrib
    cases hk : keys.get? c with
    | none =>
      simp only [hk]
      rw [hfold _ _, add_zero]
    | some ck =>
      simp only [hk]
      cases hl : lookupPer ck x.2 with
      | none =>
        simp only [hl]
        rw [hfold _ _, add_zero]
      | some e =>
        simp only [hl]
        by_cases hr : 0 < e.revenue
        · rw [if_pos hr, if_pos hr]
          dsimp only [upd1]
          rw [if_pos rfl, hfold _ _]
        · rw [if_neg hr, if_neg hr, add_zero, hfold _ _]
  · rw [if_neg hc, add_zero]
    cases hk : keys.get? (cohortIdxOf keys x.2) with
    | none =>
      simp only [hk]
      rw [hfold _ _]
    | some ck =>
      simp only [hk]
      cases hl : lookupPer ck x.2 with
      | none =>
        simp only [hl]
        rw [hfold _ _]
      | some e =>
        simp only [hl]
        by_cases hr : 0 < e.revenue
        · rw [if_pos hr]
          dsimp only [upd1]
          rw [if_neg (fun he => hc he.symm), hfold _ _]
        · rw [if_neg hr, hfold _ _]

/-- The customers of the `customer_period` table assigned to cohort index
`c` by lines 379–386. -/
def cohortMembers (keys : List (List Char)) (c : Nat)
    (cp : List (String × List (List Char × CPEntry))) :
    List (String × List (List Char × CPEntry)) :=
  cp.filter (fun x => decide (cohortIdxOf keys x.2 = c))

/-- Closed form of `cohort_size[c]`: how many customers fall in cohort `c`. -/
def cohortCount (keys : List (List Char)) (c : Nat)
    (cp : List (String × List (List Char × CPEntry))) : Nat :=
  cp.countP (fun x => decide (cohortIdxOf keys x.2 = c))

/-- Closed form of `ret_counts[c][off]` (with `j = c + off`): the number of
period cells of cohort-`c` customers at period index `j` that have positive
(truncated) orders and positive revenue. -/
def cohortActiveAt (keys : List (List Char)) (c j : Nat)
    (cp : List (String × List (List Char × CPEntry))) : Nat :=
  ((cohortMembers keys c cp).map (fun x => entryPosCount keys j x.2)).sum

/-- Closed form of `rev_sums[c][off]` (with `j = c + off`): the revenue of
cohort `c` observed at period index `j`. -/
def cohortRevenueAt (keys : List (List Char)) (c j : Nat)
    (cp : List (String × List (List Char × CPEntry))) : ℚ :=
  ((cohortMembers keys c cp).map (fun x => entryRevSum keys j x.2)).sum

/-- Closed form of `rev_base[c]` (lines 415–419): the sum over cohort-`c`
members of their cohort-period revenue, counting only positive values. -/
def cohortBase (keys : List (List Char)) (c : Nat)
    (cp : List (String × List (List Char × CPEntry))) : ℚ :=
  ((cohortMembers keys c cp).map (fun x => baseContrib keys c x.2)).sum

theorem cohortCount_cons (keys : List (List Char)) (c : Nat)
    (x : String × List (List Char × CPEntry))
    (rest : List (String × List (List Char × CPEntry))) :
    cohortCount keys c (x :: rest) =
      (if cohortIdxOf keys x.2 = c then 1 else 0) + cohortCount keys c rest := by
  unfold cohortCount
  rw [List.countP_cons]
  by_cases h : cohortIdxOf keys x.2 = c
  · simp [h]
    omega
  · simp [h]

theorem cohortActiveAt_cons (keys : List (List Char)) (c j : Nat)
    (x : String × List (List Char × CPEntry))
    (rest : List (String × List (List Char × CPEntry))) :
    cohortActiveAt keys c j (x :: rest) =
      (if cohortIdxOf keys x.2 = c then entryPosCount keys j x.2 else 0) +
        cohortActiveAt keys c j rest := by
  unfold cohortActiveAt cohortMembers
  rw [List.filter_cons]
  by_cases h : cohortIdxOf keys x.2 = c
  · simp [h]
  · simp [h]

theorem cohortRevenueAt_cons (keys : List (List Char)) (c j : Nat)
    (x : String × List (List Char × CPEntry))
    (rest : List (String × List (List Char × CPEntry))) :
    cohortRevenueAt keys c j (x :: rest) =
      (if cohortIdxOf keys x.2 = c then entryRevSum keys j x.2 else 0) +
        cohortRevenueAt keys c j rest := by
  unfold cohortRevenueAt cohortMembers
  rw [List.filter_cons]
  by_cases h : cohortIdxOf keys x.2 = c
  · simp [h]
  · simp [h]

theorem cohortBase_cons (keys : List (List Char)) (c : Nat)
    (x : String × List (List Char × CPEntry))
    (rest : List (String × List (List Char × CPEntry))) :
    cohortBase keys c (x :: rest) =
      (if cohortIdxOf keys x.2 = c then baseContrib keys c x.2 else 0) +
        cohortBase keys c rest := by
  unfold cohortBase cohortMembers
  rw [List.filter_cons]
  by_cases h : cohortIdxOf keys x.2 = c
  · simp [h]
  · simp [h]

theorem matFoldl_cohort_size (keys : List (List Char)) (horizon : Nat) (c : Nat) :
    ∀ (cp : List (String × List (List Char × CPEntry))) (acc : MatAcc),
    (cp.foldl (matCustStep keys horizon) acc).cohort_size c =
      acc.cohort_size c + cohortCount keys c cp := by
  intro cp
  induction cp with
  | nil =>
    intro acc
    simp [cohortCount]
  | cons x rest ih =>
    intro acc
    rw [List.foldl_cons, ih, matCustStep_cohort_size, cohortCount_cons]
    omega

theorem matFoldl_ret_counts (keys : List (List Char)) (horizon : Nat) (c off : Nat)
    (hoff : off ≤ horizon) :
    ∀ (cp : List (String × List (List Char × CPEntry))) (acc : MatAcc),
    (cp.foldl (matCustStep keys horizon) acc).ret_counts c off =
      acc.ret_counts c off + cohortActiveAt keys c (c + off) cp := by
  intro cp
  induction cp with
  | nil =>
    intro acc
    simp [cohortActiveAt, cohortMembers]
  | cons x rest ih =>
    intro acc
    rw [List.foldl_cons, ih, matCustStep_ret_counts keys horizon acc x c off hoff,
      cohortActiveAt_cons]
    omega

theorem matFoldl_rev_sums (keys : List (List Char)) (horizon : Nat) (c off : Nat)
    (hoff : off ≤ horizon) :
    ∀ (cp : List (String × List (List Char × CPEntry))) (acc : MatAcc),
    (cp.foldl (matCustStep keys horizon) acc).rev_sums c off =
      acc.rev_sums c off + cohortRevenueAt keys c (c + off) cp := by
  intro cp
  induction cp with
  | nil =>
    intro acc
    simp [cohortRevenueAt, cohortMembers]
  | cons x rest ih =>
    intro acc
    rw [List.foldl_cons, ih, matCustStep_rev_sums keys horizon acc x c off hoff,
      cohortRevenueAt_cons]
    ring

theorem matFoldl_rev_base (keys : List (List Char)) (horizon : Nat) (c : Nat) :
    ∀ (cp : List (String × List (List Char × CPEntry))) (acc : MatAcc),
    (cp.foldl (matCustStep keys horizon) acc).rev_base c =
      acc.rev_base c + cohortBase keys c cp := by
  intro cp
  induction cp with
  | nil =>
    intro acc
    simp [cohortBase, cohortMembers]
  | cons x rest ih =>
    intro acc
    rw [List.foldl_cons, ih, matCustStep_rev_base, cohortBase_cons]
    ring

theorem matAccOf_cohort_size (keys : List (List Char)) (horizon : Nat)
    (cp : List (String × List (List Char × CPEntry))) (c : Nat) :
    (matAccOf keys horizon cp).cohort_size c = cohortCount keys c cp := by
  unfold matAccOf
  rw [matFoldl_cohort_size]
  simp

theorem matAccOf_ret_counts (keys : List (List Char)) (horizon : Nat)
    (cp : List (String × List (List Char × CPEntry))) (c off : Nat)
    (hoff : off ≤ horizon) :
    (matAccOf keys horizon cp).ret_counts c off = cohortActiveAt keys c (c + off) cp := by
  unfold matAccOf
  rw [matFoldl_ret_counts keys horizon c off hoff]
  simp

theorem matAccOf_rev_sums (keys : List (List Char)) (horizon : Nat)
    (cp : List (String × List (List Char × CPEntry))) (c off : Nat)
    (hoff : off ≤ horizon) :
    (matAccOf keys horizon cp).rev_sums c off = cohortRevenueAt keys c (c + off) cp := by
  unfold matAccOf
  rw [matFoldl_rev_sums keys horizon c off hoff]
  simp

theorem matAccOf_rev_base (keys : List (List Char)) (horizon : Nat)
    (cp : List (String × List (List Char × CPEntry))) (c : Nat) :
    (matAccOf keys horizon cp).rev_base c = cohortBase keys c cp := by
  unfold matAccOf
  rw [matFoldl_rev_base]
  simp

theorem baseContrib_nonneg (keys : List (List Char)) (c : Nat)
    (per : List (List Char × CPEntry)) : 0 ≤ baseContrib keys c per := by
  unfold baseContrib
  cases hk : keys.get? c with
  | none =>
    simp only [hk]
    exact le_refl 0
  | some ck =>
    simp only [hk]
    cases hl : lookupPer ck per with
    | none =>
      simp only [hl]
      exact le_refl 0
    | some e =>
      simp only [hl]
      by_cases h : 0 < e.revenue
      · rw [if_pos h]
        exact le_of_lt h
      · rw [if_neg h]

theorem cohortBase_nonneg (keys : List (List Char)) (c : Nat)
    (cp : List (String × List (List Char × CPEntry))) : 0 ≤ cohortBase keys c cp := by
  unfold cohortBase
  apply List.sum_nonneg
  intro q hq
  rw [List.mem_map] at hq
  obtain ⟨x, hx, he⟩ := hq
  rw [← he]
  exact baseContrib_nonneg keys c x.2

/-- With duplicate-free period keys all drawn from `keys`, a customer has at
most one period cell at any index (the `period_index` positions of distinct
keys are distinct). -/
theorem entryPosCount_le_one (keys : List (List Char)) (c : Nat) :
    ∀ (per : List (List Char × CPEntry)), (per.map Prod.fst).Nodup →
      (∀ x ∈ per, x.1 ∈ keys) → entryPosCount keys c per ≤ 1 := by
  intro per
  induction per with
  | nil =>
    intro _ _
    exact Nat.zero_le 1
  | cons x rest ih =>
    intro hnd hmem
    rw [List.map_cons] at hnd
    rcases List.nodup_cons.mp hnd with ⟨hx, hnd2⟩
    unfold entryPosCount
    rw [List.countP_cons]
    by_cases hp : pindexOf x.1 keys = c ∧ 0 < truncQ x.2.orders ∧ 0 < x.2.revenue
    · have hz : rest.countP (fun y =>
          decide (pindexOf y.1 keys = c ∧ 0 < truncQ y.2.orders ∧ 0 < y.2.revenue)) = 0 := by
        rw [List.countP_eq_zero]
        intro y hy
        simp only [decide_eq_true_eq]
        intro hyc
        apply hx
        have h1 : keys.getD c [] = x.1 := by
          rw [← hp.1]
          exact getD_pindexOf x.1 keys (hmem x (List.mem_cons_self x rest))
        have h2 : keys.getD c [] = y.1 := by
          rw [← hyc.1]
          exact getD_pindexOf y.1 keys (hmem y (List.mem_cons_of_mem x hy))
        have h3 : y.1 = x.1 := by rw [← h2, h1]
        rw [← h3]
        exact List.mem_map.mpr ⟨y, hy, rfl⟩
      rw [hz, if_pos (decide_eq_true hp)]
    · rw [if_neg (by simpa using hp)]
      have hle := ih hnd2 (fun y hy => hmem y (List.mem_cons_of_mem x hy))
      unfold entryPosCount at hle
      omega

theorem sum_map_ones {α : Type} (f : α → Nat) :
    ∀ (l : List α), (∀ x ∈ l, f x = 1) → (l.map f).sum = l.length := by
  intro l
  induction l with
  | nil =>
    intro _
    rfl
  | cons x rest ih =>
    intro h
    rw [List.map_cons, List.sum_cons, ih (fun y hy => h y (List.mem_cons_of_mem x hy)),
      h x (List.mem_cons_self x rest), List.length_cons]
    omega

theorem mem_cohortsUsedOf (keys : List (List Char))
    (cp : List (String × List (List Char × CPEntry))) (c : Nat)
    (h : c ∈ cohortsUsedOf keys cp) : ∃ x ∈ cp, cohortIdxOf keys x.2 = c := by
  unfold cohortsUsedOf at h
  have h2 := ((isort_perm _ _).mem_iff).mp h
  rw [List.mem_dedup, List.mem_map] at h2
  obtain ⟨x, hx, he⟩ := h2
  exact ⟨x, hx, he⟩

theorem cohortCount_pos (keys : List (List Char)) (c : Nat)
    (cp : List (String × List (List Char × CPEntry)))
    (h : ∃ x ∈ cp, cohortIdxOf keys x.2 = c) : 0 < cohortCount keys c cp := by
  obtain ⟨x, hx, he⟩ := h
  unfold cohortCount
  rw [List.countP_pos_iff]
  exact ⟨x, hx, decide_eq_true he⟩

theorem cp_keys_mem_periodKeys (cp : List (String × List (List Char × CPEntry))) :
    ∀ x ∈ cp, ∀ y ∈ x.2, y.1 ∈ periodKeysOf cp := by
  intro x hx y hy
  exact mem_periodKeysOf cp x.1 x.2 y.1 y.2 hx hy

theorem py_round1_100 : py_round1 100 = 100 := by
  unfold py_round1 round_half_even
  norm_num

/-- The `customer_period` table a variant run builds from the invoices. -/
def cpTable (invoices : List InvoiceAgg) (cfg : VariantCfg) :
    List (String × List (List Char × CPEntry)) :=
  (customerPeriodOf invoices cfg).customer_period

/-- The sorted distinct period keys of a variant run. -/
def periodKeysTable (invoices : List InvoiceAgg) (cfg : VariantCfg) : List (List Char) :=
  periodKeysOf (cpTable invoices cfg)

/-- The sorted distinct cohort indices of a variant run (`cohorts_used`). -/
def cohortsTable (invoices : List InvoiceAgg) (cfg : VariantCfg) : List Nat :=
  cohortsUsedOf (periodKeysTable invoices cfg) (cpTable invoices cfg)

/-- C5: for every emitted variant, the revenue matrix is, row by used cohort
`c` and column by offset `0..horizon`, `100 × (total cohort revenue at that
offset) / (sum over cohort members with positive cohort-period revenue of
that revenue)`, clamped to `[0, 100]` and rounded to one decimal; whenever
the denominator is zero the cell is the defined value `0` — no division is
attempted and no error is raised. -/
theorem C5_revenue_matrix_cells (invoices : List InvoiceAgg) (raw : RawStats)
    (cfg : VariantCfg) (now : String) (v : Variant)
    (h : build_variant invoices raw cfg now = .ok v) :
    v.revenue_values =
      (cohortsTable invoices cfg).map (fun c =>
        (List.range (horizonOf invoices cfg + 1)).map (fun off =>
          if cohortBase (periodKeysTable invoices cfg) c (cpTable invoices cfg) = 0 then 0
          else py_round1 (max 0 (min 100 (100 *
            (cohortRevenueAt (periodKeysTable invoices cfg) c (c + off)
                (cpTable invoices cfg) /
              cohortBase (periodKeysTable invoices cfg) c (cpTable invoices cfg))))))) := by
  obtain ⟨-, -, -, -, hrev⟩ := build_variant_ok_fields invoices raw cfg now v h
  rw [hrev]
  unfold cohortsTable periodKeysTable cpTable
  simp only [pct_revenue]
  apply List.map_congr_left
  intro c hc
  apply List.map_congr_left
  intro off hoffmem
  rw [List.mem_range] at hoffmem
  have hoff : off ≤ horizonOf invoices cfg := Nat.lt_succ_iff.mp hoffmem
  rw [matAccOf_rev_base, matAccOf_rev_sums _ _ _ _ _ hoff]
  have hbn := cohortBase_nonneg (periodKeysOf (customerPeriodOf invoices cfg).customer_period)
    c (customerPeriodOf invoices cfg).customer_period
  by_cases hb : cohortBase (periodKeysOf (customerPeriodOf invoices cfg).customer_period)
      c (customerPeriodOf invoices cfg).customer_period = 0
  · rw [if_pos (le_of_eq hb), if_pos hb]
  · rw [if_neg (fun hle => hb (le_antisymm hle hbn)), if_neg hb]

/-- C1 (amended): every cell of both the count-retention and
revenue-retention matrices of an emitted variant lies in [0, 100]; and a
count-matrix row has exactly 100 in column 0 whenever every member of that
row's cohort has a period cell with positive orders and positive revenue at
the cohort period itself (the non-fallback cohort case).  Column 0 is not
100 unconditionally: customers assigned their cohort by the any-orders
fallback contribute to the cohort size but not to the offset-0 activity
count. -/
theorem C1_retention_matrix_bounds (invoices : List InvoiceAgg) (raw : RawStats)
    (cfg : VariantCfg) (now : String) (v : Variant)
    (h : build_variant invoices raw cfg now = .ok v) :
    (∀ row ∈ v.count_values, ∀ q ∈ row, 0 ≤ q ∧ q ≤ 100) ∧
    (∀ row ∈ v.revenue_values, ∀ q ∈ row, 0 ≤ q ∧ q ≤ 100) ∧
    (∀ ci, ci < (cohortsTable invoices cfg).length →
      (∀ x ∈ cpTable invoices cfg,
        cohortIdxOf (periodKeysTable invoices cfg) x.2 = (cohortsTable invoices cfg).getD ci 0 →
        0 < entryPosCount (periodKeysTable invoices cfg)
          ((cohortsTable invoices cfg).getD ci 0) x.2) →
      (v.count_values.getD ci []).getD 0 0 = 100) := by
  obtain ⟨hk, hcne, hoffs, hcnt, hrev⟩ := build_variant_ok_fields invoices raw cfg now v h
  refine ⟨?_, ?_, ?_⟩
  · intro row hrow q hq
    rw [hcnt] at hrow
    simp only [pct_counts, List.mem_map] at hrow
    obtain ⟨c, hcmem, hrow⟩ := hrow
    rw [← hrow, List.mem_map] at hq
    obtain ⟨off, hoffm, hq⟩ := hq
    rw [← hq]
    by_cases hs : (matAccOf (periodKeysOf (customerPeriodOf invoices cfg).customer_period)
        (horizonOf invoices cfg) (customerPeriodOf invoices cfg).customer_period).cohort_size
          c = 0
    · rw [if_pos hs]
      exact ⟨le_refl 0, by norm_num⟩
    · rw [if_neg hs]
      exact ⟨py_round1_nonneg (le_max_left _ _),
        py_round1_le_100 (max_le (by norm_num) (min_le_left _ _))⟩
  · intro row hrow q hq
    rw [hrev] at hrow
    simp only [pct_revenue, List.mem_map] at hrow
    obtain ⟨c, hcmem, hrow⟩ := hrow
    rw [← hrow, List.mem_map] at hq
    obtain ⟨off, hoffm, hq⟩ := hq
    rw [← hq]
    by_cases hs : (matAccOf (periodKeysOf (customerPeriodOf invoices cfg).customer_period)
        (horizonOf invoices cfg) (customerPeriodOf invoices cfg).customer_period).rev_base
          c ≤ 0
    · rw [if_pos hs]
      exact ⟨le_refl 0, by norm_num⟩
    · rw [if_neg hs]
      exact ⟨py_round1_nonneg (le_max_left _ _),
        py_round1_le_100 (max_le (by norm_num) (min_le_left _ _))⟩
  · intro ci hci hall
    unfold cohortsTable periodKeysTable cpTable at hci hall
    have hlen : ci < (cohortsUsedOf (periodKeysOf (customerPeriodOf invoices cfg).customer_period)
        (customerPeriodOf invoices cfg).customer_period).length := hci
    have hc0 : (cohortsUsedOf (periodKeysOf (customerPeriodOf invoices cfg).customer_period)
          (customerPeriodOf invoices cfg).customer_period)[ci] =
        (cohortsUsedOf (periodKeysOf (customerPeriodOf invoices cfg).customer_period)
          (customerPeriodOf invoices cfg).customer_period).getD ci 0 :=
      (List.getD_eq_getElem _ _ hlen).symm
    have hrow : v.count_values.getD ci [] =
        (List.range (horizonOf invoices cfg + 1)).map (fun off =>
          if (matAccOf (periodKeysOf (customerPeriodOf invoices cfg).customer_period)
              (horizonOf invoices cfg)
              (customerPeriodOf invoices cfg).customer_period).cohort_size
              ((cohortsUsedOf (periodKeysOf (customerPeriodOf invoices cfg).customer_period)
                (customerPeriodOf invoices cfg).customer_period).getD ci 0) = 0 then 0
          else py_round1 (max 0 (min 100 (100 *
            (((matAccOf (periodKeysOf (customerPeriodOf invoices cfg).customer_period)
                (horizonOf invoices cfg)
                (customerPeriodOf invoices cfg).customer_period).ret_counts
                ((cohortsUsedOf (periodKeysOf (customerPeriodOf invoices cfg).customer_period)
                  (customerPeriodOf invoices cfg).customer_period).getD ci 0) off : ℚ) /
              ((matAccOf (periodKeysOf (customerPeriodOf invoices cfg).customer_period)
                (horizonOf invoices cfg)
                (customerPeriodOf invoices cfg).customer_period).cohort_size
                ((cohortsUsedOf (periodKeysOf (customerPeriodOf invoices cfg).customer_period)
                  (customerPeriodOf invoices cfg).customer_period).getD ci 0) : ℚ)))))) := by
      rw [hcnt]
      rw [List.getD_eq_getElem _ _ (by simpa [pct_counts] using hlen)]
      simp only [pct_counts, List.getElem_map]
      rw [hc0]
    rw [hrow, List.range_succ_eq_map, List.map_cons, List.getD_cons_zero]
    have hc0mem : (cohortsUsedOf (periodKeysOf (customerPeriodOf invoices cfg).customer_period)
          (customerPeriodOf invoices cfg).customer_period).getD ci 0 ∈
        cohortsUsedOf (periodKeysOf (customerPeriodOf invoices cfg).customer_period)
          (customerPeriodOf invoices cfg).customer_period := by
      rw [← hc0]
      exact List.getElem_mem hlen
    have hex := mem_cohortsUsedOf _ _ _ hc0mem
    have hszpos := cohortCount_pos _ _ _ hex
    rw [matAccOf_cohort_size,
      matAccOf_ret_counts _ _ _ _ _ (Nat.zero_le (horizonOf invoices cfg))]
    rw [if_neg (by omega)]
    have hone : ∀ x ∈ cohortMembers
        (periodKeysOf (customerPeriodOf invoices cfg).customer_period)
        ((cohortsUsedOf (periodKeysOf (customerPeriodOf invoices cfg).customer_period)
          (customerPeriodOf invoices cfg).customer_period).getD ci 0)
        (customerPeriodOf invoices cfg).customer_period,
        entryPosCount (periodKeysOf (customerPeriodOf invoices cfg).customer_period)
          ((cohortsUsedOf (periodKeysOf (customerPeriodOf invoices cfg).customer_period)
            (customerPeriodOf invoices cfg).customer_period).getD ci 0 + 0) x.2 = 1 := by
      intro x hx
      rw [Nat.add_zero]
      rcases List.mem_filter.mp hx with ⟨hxcp, hxc⟩
      rw [decide_eq_true_eq] at hxc
      have hlow := hall x hxcp hxc
      have hup := entryPosCount_le_one
        (periodKeysOf (customerPeriodOf invoices cfg).customer_period)
        ((cohortsUsedOf (periodKeysOf (customerPeriodOf invoices cfg).customer_period)
          (customerPeriodOf invoices cfg).customer_period).getD ci 0) x.2
        (customerPeriodOf_keys_nodup invoices cfg x hxcp)
        (cp_keys_mem_periodKeys _ x hxcp)
      omega
    have hact : cohortActiveAt (periodKeysOf (customerPeriodOf invoices cfg).customer_period)
        ((cohortsUsedOf (periodKeysOf (customerPeriodOf invoices cfg).customer_period)
          (customerPeriodOf invoices cfg).customer_period).getD ci 0)
        ((cohortsUsedOf (periodKeysOf (customerPeriodOf invoices cfg).customer_period)
          (customerPeriodOf invoices cfg).customer_period).getD ci 0 + 0)
        (customerPeriodOf invoices cfg).customer_period =
        cohortCount (periodKeysOf (customerPeriodOf invoices cfg).customer_period)
          ((cohortsUsedOf (periodKeysOf (customerPeriodOf invoices cfg).customer_period)
            (customerPeriodOf invoices cfg).customer_period).getD ci 0)
          (customerPeriodOf invoices cfg).customer_period := by
      unfold cohortActiveAt
      rw [sum_map_ones _ _ hone]
      unfold cohortMembers cohortCount
      rw [List.countP_eq_length_filter]
    rw [hact]
    have hne : ((cohortCount (periodKeysOf (customerPeriodOf invoices cfg).customer_period)
        ((cohortsUsedOf (periodKeysOf (customerPeriodOf invoices cfg).customer_period)
          (customerPeriodOf invoices cfg).customer_period).getD ci 0)
        (customerPeriodOf invoices cfg).customer_period : ℕ) : ℚ) ≠ 0 := by
      rw [Nat.cast_ne_zero]
      omega
    rw [div_self hne, mul_one]
    rw [min_self, max_eq_right (by norm_num : (0:ℚ) ≤ 100)]
    exact py_round1_100

/-- Example input: one customer with two positive-revenue invoices in
January and March 2023. -/
def exInvoicesA : List InvoiceAgg :=
  [⟨"I1", some "A", "UK", ⟨2023, 1, 5, 10, 0, 0⟩, 50, false, 1⟩,
   ⟨"I2", some "A", "UK", ⟨2023, 3, 7, 10, 0, 0⟩, 30, false, 1⟩]

/-- Raw statistics accompanying `exInvoicesA`. -/
def exRawA : RawStats := ⟨2, 0, 0, 0, 0, 0, none, none⟩

/-- Month-granularity configuration with the default offset cap. -/
def exCfgA : VariantCfg := ⟨"month", false, false, 12⟩

/-- Witness for C5: the two-invoice run emits an artifact whose revenue
matrix satisfies the claim formula. -/
theorem C5_revenue_matrix_cells_witness :
    ∃ v, build_variant exInvoicesA exRawA exCfgA "t" = .ok v ∧
      v.revenue_values =
        (cohortsTable exInvoicesA exCfgA).map (fun c =>
          (List.range (horizonOf exInvoicesA exCfgA + 1)).map (fun off =>
            if cohortBase (periodKeysTable exInvoicesA exCfgA) c
                (cpTable exInvoicesA exCfgA) = 0 then 0
            else py_round1 (max 0 (min 100 (100 *
              (cohortRevenueAt (periodKeysTable exInvoicesA exCfgA) c (c + off)
                  (cpTable exInvoicesA exCfgA) /
                cohortBase (periodKeysTable exInvoicesA exCfgA) c
                  (cpTable exInvoicesA exCfgA))))))) := by
  match hb : build_variant exInvoicesA exRawA exCfgA "t" with
  | .error e =>
    have hof : (build_variant exInvoicesA exRawA exCfgA "t").map Variant.offsets
        = .ok [0, 1] := rfl
    rw [hb] at hof
    exact absurd hof (by simp [Except.map])
  | .ok v =>
    exact ⟨v, rfl, C5_revenue_matrix_cells exInvoicesA exRawA exCfgA "t" v hb⟩

unseal Rat.add Rat.mul Rat.inv Rat.sub Nat.gcd in
/-- C1 counterexample: a single customer whose only invoice has zero revenue
is assigned its cohort by the any-orders fallback; the emitted count matrix
is `[[0]]`, so column 0 of that cohort row is 0, not 100. -/
theorem C1_counterexample :
    (build_variant [⟨"I1", some "A", "UK", ⟨2023, 1, 5, 10, 0, 0⟩, 0, false, 1⟩]
        ⟨1, 0, 0, 0, 0, 0, none, none⟩ ⟨"month", false, false, 12⟩ "t").map Variant.count_values
      = .ok [[0]] ∧ (0 : ℚ) ≠ 100 := by
  exact ⟨rfl, by norm_num⟩

/-- Witness for C1: on the two-invoice run every matrix cell is within
[0, 100], and the single cohort's count row starts at 100 (its one member
has positive orders and revenue in the cohort month). -/
theorem C1_retention_matrix_bounds_witness :
    ∃ v, build_variant exInvoicesA exRawA exCfgA "t" = .ok v ∧
      (v.count_values.getD 0 []).getD 0 0 = 100 ∧
      (∀ row ∈ v.count_values, ∀ q ∈ row, 0 ≤ q ∧ q ≤ 100) := by
  match hb : build_variant exInvoicesA exRawA exCfgA "t" with
  | .error e =>
    have hof : (build_variant exInvoicesA exRawA exCfgA "t").map Variant.offsets
        = .ok [0, 1] := rfl
    rw [hb] at hof
    exact absurd hof (by simp [Except.map])
  | .ok v =>
    have hmain := C1_retention_matrix_bounds exInvoicesA exRawA exCfgA "t" v hb
    exact ⟨v, rfl, hmain.2.2 0 (by decide) (by decide), hmain.1⟩
